import Mathlib

/-
Verification development for the mab repository's transcription pipeline.

The definitions below are a shallow embedding of the database-effecting logic
of src/transcription-manager.js (classes TranscriptionManager,
BaseTranscriptionService / OpenAITranscriptionService and
UnifiedTranscriptionManager) and of src/db_connection.js (class
DocumentSummarizer).  The database is modelled as lists of rows; knex
UPDATE ... WHERE becomes a map over the row list guarded by the WHERE
condition; external services (OpenAI file upload, batch creation, batch
status retrieval, result download, model calls) are passed in as explicit
oracle arguments, so every function is a pure state transformer.
Timestamps (new Date()) are modelled as an abstract Nat argument.
Log output and returned counters that never reach the database are omitted
unless a claim mentions them.
-/

namespace Mab

/-- Transcription status of a document_files row.  The schema default is
'pending'; the code writes exactly the strings 'pending', 'submitted',
'completed' and 'failed', so the column is modelled as this enumeration. -/
inductive TStatus where
  | pending
  | submitted
  | completed
  | failed
deriving DecidableEq, Repr

/-- Metadata blobs written to transcription_metadata (stringified JSON in the
source).  Each constructor records the fields the corresponding write in the
source serialises. -/
inductive TMeta where
  /-- processTranscriptionResults error branch: { error, failed_at, batch_id } -/
  | bulkError (error : String) (failedAt : Nat) (batchId : String)
  /-- processTranscriptionResults success branch:
      { service, model, transcribed_at, batch_id, custom_id } -/
  | bulkSuccess (service model : String) (transcribedAt : Nat) (batchId customId : String)
  /-- UnifiedTranscriptionManager.transcribeFile success: service metadata
      { service, model, transcribed_at, characters } -/
  | syncSuccess (service model : String) (transcribedAt characters : Nat)
  /-- UnifiedTranscriptionManager.transcribeFile failure:
      { error, failed_at, service, retryable } -/
  | syncError (error : String) (failedAt : Nat) (service : String) (retryable : Bool)
deriving DecidableEq, Repr

/-- Metadata blob written to documents.summary_metadata by
DocumentSummarizer.generateSummary. -/
structure SMeta where
  service : String
  model : String
  generatedAt : Nat
  sourceFiles : Nat
  totalCharacters : Nat
  summaryCharacters : Nat
deriving DecidableEq, Repr

/-- One row of the document_files table (the transcribable page units). -/
structure FileRow where
  id : Nat
  document_id : Nat
  file_path : String
  part_number : Nat
  transcription_status : TStatus
  transcription : Option String
  transcription_metadata : Option TMeta
deriving DecidableEq, Repr

/-- One row of the documents table (fields the embedded operations read or
write; summary fields belong to the summarization unit). -/
structure DocRow where
  id : Nat
  document_key : String
  docType : String
  date : String
  summary : Option String
  summary_metadata : Option SMeta
deriving DecidableEq, Repr

/-- One row of the transcription_batches table (the Bulk Job tracker).
file_ids holds the JSON membership list; none models a stored value that
JSON.parse cannot decode. -/
structure BatchRow where
  batch_id : String
  status : String
  input_file_id : Option String
  output_file_id : Option String
  error_file_id : Option String
  request_count : Nat
  completed_count : Nat
  failed_count : Nat
  processed_at : Option Nat
  completed_at : Option Nat
  description : String
  file_ids : Option (List Nat)
deriving DecidableEq, Repr

/-- The durable state: the three tables of the pipeline. -/
structure DBState where
  documents : List DocRow
  document_files : List FileRow
  transcription_batches : List BatchRow
deriving DecidableEq, Repr

/-- Byte-wise (code-point-wise) lexicographic comparison of char lists,
modelling SQLite text comparison used by ORDER BY d.date on ISO date
strings. -/
def charsLe : List Char → List Char → Bool
  | [], _ => true
  | _ :: _, [] => false
  | a :: as, b :: bs =>
    if a.toNat < b.toNat then true
    else if a.toNat = b.toNat then charsLe as bs
    else false

/-- Lexicographic order on strings (as used for the date column). -/
def dateLe (x y : String) : Bool := charsLe x.toList y.toList

/-- Insert an element into a list so that it lands before the first element
strictly greater than it: the insertion step of a stable insertion sort. -/
def insertLe {α : Type} (le : α → α → Bool) (a : α) : List α → List α
  | [] => [a]
  | b :: bs => if le a b then a :: b :: bs else b :: insertLe le a bs

/-- Stable insertion sort; models the deterministic reading of the SQL
ORDER BY clause (rows with equal keys keep their table order). -/
def stableSortBy {α : Type} (le : α → α → Bool) (l : List α) : List α :=
  l.foldr (insertLe le) []

/-- One row of the joined result of
document_files JOIN documents ON df.document_id = d.id, as selected by
getPendingFiles. -/
structure PendingRow where
  id : Nat
  file_path : String
  part_number : Nat
  document_key : String
  docType : String
  date : String
  transcription_status : TStatus
deriving DecidableEq, Repr

/-- The SQL inner join of document_files with documents (files outer). -/
def joinFiles (s : DBState) : List PendingRow :=
  s.document_files.foldr
    (fun f acc =>
      ((s.documents.filter (fun d => d.id == f.document_id)).map
        (fun d =>
          { id := f.id, file_path := f.file_path, part_number := f.part_number,
            document_key := d.document_key, docType := d.docType, date := d.date,
            transcription_status := f.transcription_status })) ++ acc)
    []

/-- TranscriptionManager.getPendingFiles / UnifiedTranscriptionManager.getPendingFiles:
join document_files with documents, keep rows whose transcription_status is
'pending' (and whose document type matches the optional filter), order by
d.date ascending, and take at most limit rows.  The source orders by d.date
only. -/
def getPendingFiles (s : DBState) (limit : Nat) (typeFilter : Option String) :
    List PendingRow :=
  let filtered := (joinFiles s).filter
    (fun r => r.transcription_status == TStatus.pending &&
      (match typeFilter with
       | some t => r.docType == t
       | none => true))
  (stableSortBy (fun a b => dateLe a.date b.date) filtered).take limit

/-- knex UPDATE document_files WHERE id = fid: apply g to every row whose id
matches (ids are unique in the real table; the model keeps the general map). -/
def writeFile (fid : Nat) (g : FileRow → FileRow) (s : DBState) : DBState :=
  { s with document_files :=
      s.document_files.map (fun f => if f.id == fid then g f else f) }

/-- knex UPDATE document_files WHERE id IN ids. -/
def writeFilesIn (ids : List Nat) (g : FileRow → FileRow) (s : DBState) : DBState :=
  { s with document_files :=
      s.document_files.map (fun f => if f.id ∈ ids then g f else f) }

/-- knex UPDATE transcription_batches WHERE batch_id = bid. -/
def writeBatch (bid : String) (g : BatchRow → BatchRow) (s : DBState) : DBState :=
  { s with transcription_batches :=
      s.transcription_batches.map (fun b => if b.batch_id == bid then g b else b) }

/-- Value of a maximal run of decimal digits, as parseInt produces on the
capture of the custom-id regex. -/
def digitsToNat (ds : List Char) : Nat :=
  ds.foldl (fun n c => n * 10 + (c.toNat - 48)) 0

/-- Leading-match test: pat is an initial segment of l. -/
def occursAt : List Char → List Char → Bool
  | [], _ => true
  | _ :: _, [] => false
  | a :: as, b :: bs => a == b && occursAt as bs

/-- Substring test: pat occurs somewhere in l (the semantics of
String.prototype.includes / an unanchored regex literal). -/
def occursIn (pat : List Char) : List Char → Bool
  | [] => occursAt pat []
  | l@(_ :: rest) => occursAt pat l || occursIn pat rest

/-- The characters of the custom-id tag "transcribe-file-". -/
def customIdTag : List Char := "transcribe-file-".toList

/-- Scan for the JS regex /transcribe-file-(\d+)/: at the first position where
the tag is followed by at least one digit, capture the maximal digit run;
otherwise keep scanning (regex search resumes at later start positions). -/
def parseCustomIdChars : List Char → Option Nat
  | [] => none
  | c :: rest =>
    if occursAt customIdTag (c :: rest) then
      let ds := ((c :: rest).drop customIdTag.length).takeWhile Char.isDigit
      if ds.isEmpty then parseCustomIdChars rest
      else some (digitsToNat ds)
    else parseCustomIdChars rest

/-- Parse a custom_id back to the integer file id, as
custom_id.match(/transcribe-file-(\d+)/) followed by parseInt does. -/
def parseCustomId (cid : String) : Option Nat :=
  parseCustomIdChars cid.toList

/-- One content entry of a structured output message. -/
structure ContentItem where
  contentType : String
  text : String
deriving DecidableEq, Repr

/-- One item of the structured Responses-API output list. -/
structure OutItem where
  itemType : String
  content : List ContentItem
deriving DecidableEq, Repr

/-- The response body of one downloaded result line.  output models the
structured output[] list (a JS array is truthy even when empty, so presence
is what the code's output && Array.isArray(output) tests); output_text models
the direct text field, on which the code's else-if tests JS truthiness, so
an empty string behaves like an absent field. -/
structure RespBody where
  output : Option (List OutItem)
  output_text : Option String
deriving DecidableEq, Repr

/-- One line of a downloaded batch output file, after JSON.parse.
parseFail models a line whose JSON.parse (or field access) throws: the
per-line catch counts an error and moves on. -/
inductive ResultLine where
  | parseFail
  | errLine (custom_id : String) (message : String)
  | okLine (custom_id : String) (body : RespBody)
deriving DecidableEq, Repr

/-- A structured output message whose first content entry carries text t:
the shape output[].content[].text the reconciler's primary branch reads. -/
def msgItem (t : String) : OutItem :=
  { itemType := "message", content := [{ contentType := "output_text", text := t }] }

/-- Extract the transcription text from a response body, following
processTranscriptionResults: if the structured output list is present, find
the first item of type 'message' and require its first content entry to have
type 'output_text' (taking its trimmed text); otherwise fall back to a
truthy (non-empty) output_text, trimmed; otherwise no text (per-line error). -/
def extractText (body : RespBody) : Option String :=
  match body.output with
  | some arr =>
    match arr.find? (fun it => it.itemType == "message") with
    | some mo =>
      match mo.content with
      | c0 :: _ => if c0.contentType == "output_text" then some c0.text.trim else none
      | [] => none
    | none => none
  | none =>
    match body.output_text with
    | some t => if t == "" then none else some t.trim
    | none => none

/-- Database effect of one result line inside processTranscriptionResults:
an error line marks the decoded file failed (when the custom id decodes);
a success line whose body yields text marks the decoded file completed with
that text; every other line only counts an error and writes nothing. -/
def applyLine (batch : BatchRow) (now : Nat) (st : DBState) (l : ResultLine) : DBState :=
  match l with
  | .parseFail => st
  | .errLine cid msg =>
    match parseCustomId cid with
    | some fid =>
      writeFile fid
        (fun f => { f with transcription_status := TStatus.failed,
                           transcription_metadata :=
                             some (TMeta.bulkError msg now batch.batch_id) }) st
    | none => st
  | .okLine cid body =>
    match extractText body with
    | some txt =>
      match parseCustomId cid with
      | some fid =>
        writeFile fid
          (fun f => { f with transcription := some txt,
                             transcription_status := TStatus.completed,
                             transcription_metadata :=
                               some (TMeta.bulkSuccess "openai" "gpt-5" now
                                 batch.batch_id cid) }) st
      | none => st
    | none => st

/-- The batches processTranscriptionResults selects: status 'completed' and
processed_at still null. -/
def rrSelect (s : DBState) : List BatchRow :=
  s.transcription_batches.filter
    (fun b => b.status == "completed" && b.processed_at.isNone)

/-- Processing of one selected batch: a batch without an output file is
skipped entirely (no marker); otherwise every downloaded line is applied and
then the batch's processed marker is set. -/
def rrStep (dl : String → List ResultLine) (now : Nat) (st : DBState) (b : BatchRow) :
    DBState :=
  match b.output_file_id with
  | none => st
  | some ofid =>
    let st1 := (dl ofid).foldl (applyLine b now) st
    writeBatch b.batch_id (fun r => { r with processed_at := some now }) st1

/-- TranscriptionManager.processTranscriptionResults: select the completed
unprocessed batches (a snapshot), then process each in turn.  dl is the
download oracle from output_file_id to parsed result lines; the returned
processed/error counters never reach the database and are omitted. -/
def processTranscriptionResults (dl : String → List ResultLine) (now : Nat)
    (s : DBState) : DBState :=
  (rrSelect s).foldl (rrStep dl now) s

/-- The batches cleanupFailedBatches selects: status 'completed', a non-zero
failure count, processed_at still null. -/
def csSelect (s : DBState) : List BatchRow :=
  s.transcription_batches.filter
    (fun b => b.status == "completed" && decide (0 < b.failed_count) &&
      b.processed_at.isNone)

/-- Cleanup of one selected batch: when the stored membership list decodes,
reset every member file to pending with null metadata (the transcription
text column is not touched), then set the processed marker and annotate the
description; when JSON.parse of file_ids fails, skip the batch. -/
def csStep (now : Nat) (st : DBState) (b : BatchRow) : DBState :=
  match b.file_ids with
  | none => st
  | some ids =>
    let st1 := writeFilesIn ids
      (fun f => { f with transcription_status := TStatus.pending,
                         transcription_metadata := none }) st
    writeBatch b.batch_id
      (fun r => { r with processed_at := some now,
                         description := b.description ++ " [CLEANED UP - FAILED]" }) st1

/-- TranscriptionManager.cleanupFailedBatches: select completed batches with
failures not yet processed (a snapshot), then clean each in turn. -/
def cleanupFailedBatches (now : Nat) (s : DBState) : DBState :=
  (csSelect s).foldl (csStep now) s

/-- The transcription_batches row created by createTranscriptionBatch:
status as reported by batch creation, request_count and description from the
file count, membership from the submitted file ids, counts zero, processed
marker null. -/
def newBatchRow (files : List PendingRow) (inputFileId bid bstatus : String) :
    BatchRow :=
  { batch_id := bid, status := bstatus, input_file_id := some inputFileId,
    output_file_id := none, error_file_id := none,
    request_count := files.length, completed_count := 0, failed_count := 0,
    processed_at := none, completed_at := none,
    description := "PDF transcription batch - " ++ toString files.length ++ " files",
    file_ids := some (files.map (fun f => f.id)) }

/-- TranscriptionManager.createTranscriptionBatch, database effect.  up is
the outcome of the file upload (openai.files.create) and cr the outcome of
batch creation (openai.batches.create), each none when the call throws; on
either failure the error propagates with no row inserted and no status
changed.  On success a transcription_batches row is inserted and every
submitted file is marked 'submitted'. -/
def createTranscriptionBatch (s : DBState) (files : List PendingRow)
    (up : Option String) (cr : Option (String × String)) (_now : Nat) :
    Option String × DBState :=
  match up with
  | none => (none, s)
  | some inputFileId =>
    match cr with
    | none => (none, s)
    | some (bid, bstatus) =>
      let s1 := { s with transcription_batches :=
        s.transcription_batches ++ [newBatchRow files inputFileId bid bstatus] }
      let s2 := writeFilesIn (files.map (fun f => f.id))
        (fun f => { f with transcription_status := TStatus.submitted }) s1
      (some bid, s2)

/-- External batch status as reported by openai.batches.retrieve. -/
structure ApiBatch where
  status : String
  output_file_id : Option String
  error_file_id : Option String
  completedCnt : Nat
  failedCnt : Nat
  completed_at : Option Nat
deriving DecidableEq, Repr

/-- One step of checkTranscriptionBatches: if the externally reported status
differs from the stored one, copy status, artifact references and counts in;
otherwise leave the row alone. -/
def trackStep (api : String → ApiBatch) (st : DBState) (b : BatchRow) : DBState :=
  let a := api b.batch_id
  if a.status == b.status then st
  else
    writeBatch b.batch_id
      (fun r => { r with status := a.status,
                         output_file_id := a.output_file_id,
                         error_file_id := a.error_file_id,
                         completed_count := a.completedCnt,
                         failed_count := a.failedCnt,
                         completed_at := a.completed_at }) st

/-- TranscriptionManager.checkTranscriptionBatches: refresh every batch whose
processed marker is still null from the external service.  It never touches
document_files. -/
def checkTranscriptionBatches (api : String → ApiBatch) (s : DBState) : DBState :=
  (s.transcription_batches.filter (fun b => b.processed_at.isNone)).foldl
    (trackStep api) s

/-- BaseTranscriptionService.isRetryableError (used by the Gemini service):
substring-match the failure message for rate-limit / quota indicators. -/
def baseIsRetryableError (msg : String) : Bool :=
  occursIn "RESOURCE_EXHAUSTED".toList msg.toList ||
  occursIn "429".toList msg.toList ||
  occursIn "quota".toList msg.toList ||
  occursIn "rate limit".toList msg.toList

/-- OpenAITranscriptionService.isRetryableError: the OpenAI-specific
substring classification. -/
def openaiIsRetryableError (msg : String) : Bool :=
  occursIn "rate_limit_exceeded".toList msg.toList ||
  occursIn "429".toList msg.toList ||
  occursIn "quota".toList msg.toList ||
  occursIn "insufficient_quota".toList msg.toList ||
  occursIn "overloaded".toList msg.toList

/-- Outcome of one capability call (transcriptionService.transcribe): the
produced text, or the thrown error's message. -/
inductive TOutcome where
  | ok (transcription : String)
  | thrown (message : String)
deriving DecidableEq, Repr

/-- Result record returned by UnifiedTranscriptionManager.transcribeFile
(the fields a caller branches on). -/
structure TFResult where
  success : Bool
  retryable : Bool
deriving DecidableEq, Repr

/-- UnifiedTranscriptionManager.transcribeFile, database effect.  service and
model name the selected backend; retry is that backend's isRetryableError.
On success with a file id the row is written completed with the text and
metadata; on a thrown error with a file id the row's status becomes pending
when the error classifies as retryable and failed otherwise (the
transcription column is left as it was); without a file id nothing is
written. -/
def transcribeFile (s : DBState) (fid : Option Nat) (outcome : TOutcome)
    (service modelName : String) (retry : String → Bool) (now : Nat) :
    TFResult × DBState :=
  match outcome with
  | .ok txt =>
    let s' :=
      match fid with
      | some i =>
        writeFile i
          (fun f => { f with transcription := some txt,
                             transcription_status := TStatus.completed,
                             transcription_metadata :=
                               some (TMeta.syncSuccess service modelName now
                                 txt.length) }) s
      | none => s
    ({ success := true, retryable := false }, s')
  | .thrown msg =>
    let r := retry msg
    let s' :=
      match fid with
      | some i =>
        writeFile i
          (fun f => { f with transcription_status :=
                               if r then TStatus.pending else TStatus.failed,
                             transcription_metadata :=
                               some (TMeta.syncError msg now service r) }) s
      | none => s
    ({ success := false, retryable := r }, s')

/-- Result of DocumentSummarizer.generateSummary as seen by callers. -/
inductive SumResult where
  /-- success: true; alreadyExists is set on the existing-summary early
      return. -/
  | ok (summary : String) (metadata : Option SMeta) (alreadyExists : Bool)
  /-- success: false with the caught error message. -/
  | err (error : String)
deriving DecidableEq, Repr

/-- The page-break marker between concatenated page transcriptions. -/
def pageBreakSep : String := "\n\n--- PAGE BREAK ---\n\n"

/-- DocumentSummarizer.getDocumentWithTranscriptions: load the document row,
then its completed non-null transcriptions ordered by part_number; throws
(Except.error) when the document does not exist or no completed
transcription is found. -/
def getDocumentWithTranscriptions (s : DBState) (documentId : Nat) :
    Except String (DocRow × List FileRow × String) :=
  match s.documents.find? (fun d => d.id == documentId) with
  | none => .error ("Document not found: " ++ toString documentId)
  | some document =>
    let files := stableSortBy (fun a b => decide (a.part_number ≤ b.part_number))
      (s.document_files.filter
        (fun f => f.document_id == documentId &&
          f.transcription_status == TStatus.completed && f.transcription.isSome))
    if files.isEmpty then
      .error ("No completed transcriptions found for document " ++
        toString documentId)
    else
      .ok (document, files,
        String.intercalate pageBreakSep
          (files.map (fun f => f.transcription.getD "")))

/-- JS truthiness of a nullable string column: null and the empty string are
falsy, every other string is truthy. -/
def strTruthy (o : Option String) : Bool :=
  match o with
  | none => false
  | some t => !(t == "")

/-- DocumentSummarizer.generateSummary, database effect.  capability is the
outcome of the OpenAI summary call on the combined transcription (none when
the call throws).  The completed transcriptions are fetched first; only then
is an existing summary checked with JS truthiness (if (document.summary)):
a non-empty stored summary is returned unchanged with no write, while a null
or empty-string summary falls through, so a fresh summary is generated and
saved (overwriting an empty one).  All thrown errors are caught and become
an err result with the state unchanged. -/
def generateSummary (s : DBState) (documentId : Nat)
    (capability : String → Option String) (now : Nat) : SumResult × DBState :=
  match getDocumentWithTranscriptions s documentId with
  | .error e => (.err e, s)
  | .ok (document, files, combined) =>
    if strTruthy document.summary then
      (.ok (document.summary.getD "") document.summary_metadata true, s)
    else
      match capability combined with
      | none => (.err "summary call failed", s)
      | some raw =>
        let summary := raw.trim
        let meta : SMeta :=
          { service := "openai", model := "gpt-5-mini", generatedAt := now,
            sourceFiles := files.length, totalCharacters := combined.length,
            summaryCharacters := summary.length }
        let docs' := s.documents.map (fun d =>
          if d.id == documentId then
            { d with summary := some summary, summary_metadata := some meta }
          else d)
        (.ok summary (some meta) false, { s with documents := docs' })

/-- One per-document entry of generateBatchSummaries' results array. -/
inductive BatchSumEntry where
  | skipped (documentId : Nat)
  | ran (documentId : Nat) (result : SumResult)
deriving DecidableEq, Repr

/-- DocumentSummarizer.generateBatchSummaries: for each id, when force is
false and the document has a JS-truthy (non-null, non-empty) summary, skip
it without calling generateSummary; otherwise call generateSummary (which
itself returns a truthy existing summary unchanged). -/
def generateBatchSummaries (s : DBState) (documentIds : List Nat) (force : Bool)
    (capability : String → Option String) (now : Nat) :
    List BatchSumEntry × DBState :=
  documentIds.foldl
    (fun acc documentId =>
      let (entries, st) := acc
      if !force &&
          (match st.documents.find? (fun d => d.id == documentId) with
           | some d => strTruthy d.summary
           | none => false) then
        (entries ++ [BatchSumEntry.skipped documentId], st)
      else
        let (r, st') := generateSummary st documentId capability now
        (entries ++ [BatchSumEntry.ran documentId r], st'))
    ([], s)

/-- One pass of the synchronous runner (BackgroundTranscriber.processBatch /
UnifiedTranscriptionManager.transcribeBatch): fetch up to limit pending
units, then invoke the capability and write each unit back in order.
outcomes gives the capability result per file id. -/
def runnerPass (limit : Nat) (typeFilter : Option String) (outcomes : Nat → TOutcome)
    (service modelName : String) (retry : String → Bool) (now : Nat)
    (s : DBState) : DBState :=
  (getPendingFiles s limit typeFilter).foldl
    (fun st r =>
      (transcribeFile st (some r.id) (outcomes r.id) service modelName retry now).2)
    s

/-- How the pipeline's callers select units for bulk submission: either
getPendingFiles, or explicit file ids still filtered to the pending status
(the create-batch CLI path). -/
inductive SubmitSel where
  | byLimit (limit : Nat) (typeFilter : Option String)
  | byIds (ids : List Nat)
deriving Repr

/-- The join rows handed to createTranscriptionBatch for a selection. -/
def selectSubmit (s : DBState) : SubmitSel → List PendingRow
  | .byLimit limit typeFilter => getPendingFiles s limit typeFilter
  | .byIds ids =>
    (joinFiles s).filter
      (fun r => r.id ∈ ids && r.transcription_status == TStatus.pending)

/-- One pipeline operation, with its external-world inputs. -/
inductive PipeOp where
  | runner (limit : Nat) (typeFilter : Option String) (outcomes : Nat → TOutcome)
      (service modelName : String) (retry : String → Bool) (now : Nat)
  | submit (sel : SubmitSel) (up : Option String) (cr : Option (String × String))
      (now : Nat)
  | track (api : String → ApiBatch)
  | reconcile (dl : String → List ResultLine) (now : Nat)
  | sweep (now : Nat)

/-- Database effect of one pipeline operation. -/
def applyOp : PipeOp → DBState → DBState
  | .runner limit tf outcomes service modelName retry now, s =>
    runnerPass limit tf outcomes service modelName retry now s
  | .submit sel up cr now, s => (createTranscriptionBatch s (selectSubmit s sel) up cr now).2
  | .track api, s => checkTranscriptionBatches api s
  | .reconcile dl now, s => processTranscriptionResults dl now s
  | .sweep now, s => cleanupFailedBatches now s

/-- The file id a result line refers to, when its custom id decodes. -/
def lineTarget (l : ResultLine) : Option Nat :=
  match l with
  | .parseFail => none
  | .errLine cid _ => parseCustomId cid
  | .okLine cid _ => parseCustomId cid

/-- The file ids a list of result lines refers to (every line whose custom id
decodes, whether or not it ends up writing). -/
def lineIds (ls : List ResultLine) : List Nat :=
  ls.filterMap lineTarget

/-- Membership list of a bulk job (empty when file_ids does not decode). -/
def members (b : BatchRow) : List Nat := b.file_ids.getD []

/-- A well-behaved external world for an operation.  Only reconciliation
needs an assumption: the external service answers exactly the requests of
the batch's input file, so a downloaded output names only member units and
names each unit at most once (spec: one result record per submitted unit). -/
def WellBehaved : PipeOp → DBState → Prop
  | .reconcile dl _, s =>
    ∀ b ∈ rrSelect s, ∀ ofid, b.output_file_id = some ofid →
      (∀ i ∈ lineIds (dl ofid), i ∈ members b) ∧ (lineIds (dl ofid)).Nodup
  | _, _ => True

/-- The pipeline invariant: members of every not-yet-processed bulk job are
in status 'submitted'; distinct unprocessed bulk jobs have disjoint
membership; file ids are unique. -/
def Inv (s : DBState) : Prop :=
  (∀ b ∈ s.transcription_batches, b.processed_at = none →
    ∀ f ∈ s.document_files, f.id ∈ members b →
      f.transcription_status = TStatus.submitted) ∧
  (s.transcription_batches.filter (fun b => b.processed_at.isNone)).Pairwise
    (fun b b' => ∀ i ∈ members b, i ∉ members b') ∧
  (s.document_files.map (fun f => f.id)).Nodup

/-- States reachable by the pipeline from a fresh store: no bulk jobs yet
(the transcription_batches table is created on demand), unique file ids,
then any sequence of well-behaved pipeline operations. -/
inductive Reachable : DBState → Prop where
  | init (s : DBState) : s.transcription_batches = [] →
      (s.document_files.map (fun f => f.id)).Nodup → Reachable s
  | step (s : DBState) (op : PipeOp) : Reachable s → WellBehaved op s →
      Reachable (applyOp op s)

/-- The status transitions the spec allows:
pending to submitted/completed/failed, submitted to completed/failed/pending. -/
def allowedT : TStatus → TStatus → Bool
  | TStatus.pending, TStatus.submitted => true
  | TStatus.pending, TStatus.completed => true
  | TStatus.pending, TStatus.failed => true
  | TStatus.submitted, TStatus.completed => true
  | TStatus.submitted, TStatus.failed => true
  | TStatus.submitted, TStatus.pending => true
  | _, _ => false

/-- A unit's end-to-end status evolution across one operation is safe: it is
unchanged or moves along an allowed transition. -/
def statusStepOk (a b : TStatus) : Prop := a = b ∨ allowedT a b = true

/-
Pointwise (per-row) forms of the operations' effects, used to reason about
the state transformers above: every UPDATE is a map over the row lists, so
each operation's effect on document_files (and transcription_batches) is a
map by the functions below.
-/

/-- Per-row effect of one result line of the reconciler. -/
def lineF (b : BatchRow) (now : Nat) (l : ResultLine) (f : FileRow) : FileRow :=
  match l with
  | .parseFail => f
  | .errLine cid msg =>
    match parseCustomId cid with
    | some fid =>
      if f.id == fid then
        { f with transcription_status := TStatus.failed,
                 transcription_metadata :=
                   some (TMeta.bulkError msg now b.batch_id) }
      else f
    | none => f
  | .okLine cid body =>
    match extractText body with
    | some txt =>
      match parseCustomId cid with
      | some fid =>
        if f.id == fid then
          { f with transcription := some txt,
                   transcription_status := TStatus.completed,
                   transcription_metadata :=
                     some (TMeta.bulkSuccess "openai" "gpt-5" now b.batch_id cid) }
        else f
      | none => f
    | none => f

/-- Per-row effect of reconciling one batch. -/
def pointB (dl : String → List ResultLine) (now : Nat) (b : BatchRow)
    (f : FileRow) : FileRow :=
  match b.output_file_id with
  | none => f
  | some ofid => (dl ofid).foldl (fun fr l => lineF b now l fr) f

/-- Per-row effect of one whole reconciliation pass over a batch snapshot. -/
def pointR (dl : String → List ResultLine) (now : Nat) (bs : List BatchRow)
    (f : FileRow) : FileRow :=
  bs.foldl (fun fr b => pointB dl now b fr) f

/-- Per-row effect of sweeping one batch. -/
def pointCB (b : BatchRow) (f : FileRow) : FileRow :=
  match b.file_ids with
  | none => f
  | some ids =>
    if f.id ∈ ids then
      { f with transcription_status := TStatus.pending,
               transcription_metadata := none }
    else f

/-- Per-row effect of one whole recovery sweep over a batch snapshot. -/
def pointC (bs : List BatchRow) (f : FileRow) : FileRow :=
  bs.foldl (fun fr b => pointCB b fr) f

/-- Per-row effect of the synchronous write-back for unit i. -/
def tfRowF (i : Nat) (outcome : TOutcome) (service modelName : String)
    (retry : String → Bool) (now : Nat) (f : FileRow) : FileRow :=
  if f.id == i then
    match outcome with
    | .ok txt =>
      { f with transcription := some txt,
               transcription_status := TStatus.completed,
               transcription_metadata :=
                 some (TMeta.syncSuccess service modelName now txt.length) }
    | .thrown msg =>
      { f with transcription_status :=
                 if retry msg then TStatus.pending else TStatus.failed,
               transcription_metadata :=
                 some (TMeta.syncError msg now service (retry msg)) }
  else f

/-- Per-row effect of one whole runner pass over fetched rows. -/
def pointRun (outcomes : Nat → TOutcome) (service modelName : String)
    (retry : String → Bool) (now : Nat) (rows : List PendingRow)
    (f : FileRow) : FileRow :=
  rows.foldl
    (fun fr r => tfRowF r.id (outcomes r.id) service modelName retry now fr) f

/-- Per-batch-row effect of reconciling one batch (marker setting). -/
def rMarkStep (now : Nat) (b : BatchRow) (r : BatchRow) : BatchRow :=
  match b.output_file_id with
  | none => r
  | some _ =>
    if r.batch_id == b.batch_id then { r with processed_at := some now } else r

/-- Per-batch-row effect of a reconciliation pass. -/
def rMark (now : Nat) (bs : List BatchRow) (r : BatchRow) : BatchRow :=
  bs.foldl (fun rr b => rMarkStep now b rr) r

/-- Per-batch-row effect of sweeping one batch (marker and annotation). -/
def cMarkStep (now : Nat) (b : BatchRow) (r : BatchRow) : BatchRow :=
  match b.file_ids with
  | none => r
  | some _ =>
    if r.batch_id == b.batch_id then
      { r with processed_at := some now,
               description := b.description ++ " [CLEANED UP - FAILED]" }
    else r

/-- Per-batch-row effect of a recovery sweep pass. -/
def cMark (now : Nat) (bs : List BatchRow) (r : BatchRow) : BatchRow :=
  bs.foldl (fun rr b => cMarkStep now b rr) r

/-- Per-batch-row effect of refreshing against one tracked batch. -/
def trackStepRow (api : String → ApiBatch) (b : BatchRow) (r : BatchRow) :
    BatchRow :=
  if (api b.batch_id).status == b.status then r
  else if r.batch_id == b.batch_id then
    { r with status := (api b.batch_id).status,
             output_file_id := (api b.batch_id).output_file_id,
             error_file_id := (api b.batch_id).error_file_id,
             completed_count := (api b.batch_id).completedCnt,
             failed_count := (api b.batch_id).failedCnt,
             completed_at := (api b.batch_id).completed_at }
  else r

/-- Per-batch-row effect of a whole tracker pass. -/
def trackRows (api : String → ApiBatch) (bs : List BatchRow) (r : BatchRow) :
    BatchRow :=
  bs.foldl (fun rr b => trackStepRow api b rr) r

/-
Concrete states used to instantiate the theorems below (witnesses,
counterexamples and failing inputs).
-/

/-- A fresh pending page unit. -/
def mkPendingFile (i doc part : Nat) (p : String) : FileRow :=
  { id := i, document_id := doc, file_path := p, part_number := part,
    transcription_status := TStatus.pending, transcription := none,
    transcription_metadata := none }

/-- Two documents, dated 1943-01-02 (with parts stored in order [2, 1]) and
1943-01-01 (part [1]): the ordering example of the spec. -/
def cex3 : DBState :=
  { documents :=
      [ { id := 1, document_key := "MAR_wartime_letters_430102",
          docType := "wartime_letters", date := "1943-01-02",
          summary := none, summary_metadata := none },
        { id := 2, document_key := "MAR_wartime_letters_430101",
          docType := "wartime_letters", date := "1943-01-01",
          summary := none, summary_metadata := none } ],
    document_files :=
      [ mkPendingFile 1 1 2 "430102-2.pdf",
        mkPendingFile 2 1 1 "430102-1.pdf",
        mkPendingFile 3 2 1 "430101-1.pdf" ],
    transcription_batches := [] }

/-- A document with a stored summary. -/
def cex6doc : DocRow :=
  { id := 1, document_key := "MAR_wartime_letters_430101",
    docType := "wartime_letters", date := "1943-01-01",
    summary := some "old", summary_metadata := none }

/-- The document with a stored summary but zero completed transcriptions. -/
def cex6 : DBState :=
  { documents := [cex6doc], document_files := [], transcription_batches := [] }

/-- A completed page transcription belonging to cex6doc's document. -/
def cex7file : FileRow :=
  { id := 1, document_id := 1, file_path := "430101-1.pdf", part_number := 1,
    transcription_status := TStatus.completed,
    transcription := some "Dear folks, arrived safely.",
    transcription_metadata := none }

/-- A document with a stored summary and one completed transcription. -/
def cex7 : DBState :=
  { documents := [cex6doc], document_files := [cex7file],
    transcription_batches := [] }

/-- A document whose stored summary is the empty string (JS-falsy). -/
def cex6bdoc : DocRow :=
  { id := 1, document_key := "MAR_wartime_letters_430101",
    docType := "wartime_letters", date := "1943-01-01",
    summary := some "", summary_metadata := none }

/-- The empty-string-summary document with one completed transcription. -/
def cex6b : DBState :=
  { documents := [cex6bdoc], document_files := [cex7file],
    transcription_batches := [] }

/-- A single submitted unit, for the synchronous write-back instances. -/
def wit8 : DBState :=
  { documents := [],
    document_files :=
      [ { id := 3, document_id := 1, file_path := "430101-1.pdf",
          part_number := 1, transcription_status := TStatus.submitted,
          transcription := none, transcription_metadata := none } ],
    transcription_batches := [] }

/-- The bulk job the reconciler instances run against. -/
def cb9 : BatchRow :=
  { batch_id := "batch_abc", status := "completed",
    input_file_id := some "file_in", output_file_id := some "out1",
    error_file_id := none, request_count := 1, completed_count := 1,
    failed_count := 0, processed_at := none, completed_at := some 1,
    description := "PDF transcription batch - 1 files", file_ids := some [1] }

/-- One submitted unit awaiting reconciliation. -/
def cex9 : DBState :=
  { documents := [],
    document_files :=
      [ { id := 1, document_id := 1, file_path := "430101-1.pdf",
          part_number := 1, transcription_status := TStatus.submitted,
          transcription := none, transcription_metadata := none } ],
    transcription_batches := [cb9] }

/-- Download oracle returning one successful result line for file 1. -/
def wit1dl : String → List ResultLine :=
  fun ofid =>
    if ofid == "out1" then
      [ResultLine.okLine "transcribe-file-1" { output := none, output_text := some "Hello." }]
    else []

/-- A completed bulk job with one failure, membership [1], unprocessed. -/
def cex4batch : BatchRow :=
  { batch_id := "batch_f", status := "completed",
    input_file_id := some "file_in", output_file_id := some "out_f",
    error_file_id := some "err_f", request_count := 1, completed_count := 0,
    failed_count := 1, processed_at := none, completed_at := some 1,
    description := "PDF transcription batch - 1 files", file_ids := some [1] }

/-- The member unit of cex4batch, carrying a stale result and metadata. -/
def cex4file : FileRow :=
  { id := 1, document_id := 1, file_path := "430101-1.pdf", part_number := 1,
    transcription_status := TStatus.submitted,
    transcription := some "stale text",
    transcription_metadata := some (TMeta.bulkError "boom" 1 "batch_f") }

/-- State for the recovery-sweep instances. -/
def cex4 : DBState :=
  { documents := [], document_files := [cex4file],
    transcription_batches := [cex4batch] }

/-- A one-pending-unit store with no bulk jobs: a fresh pipeline state. -/
def wit5 : DBState :=
  { documents := [], document_files := [mkPendingFile 1 1 1 "430101-1.pdf"],
    transcription_batches := [] }

/-
Helper lemmas.
-/

theorem stableSortBy_cons {α : Type} (le : α → α → Bool) (b : α) (bs : List α) :
    stableSortBy le (b :: bs) = insertLe le b (stableSortBy le bs) := rfl

theorem mem_insertLe {α : Type} (le : α → α → Bool) (a x : α) :
    ∀ l : List α, x ∈ insertLe le a l ↔ x = a ∨ x ∈ l
  | [] => by simp [insertLe]
  | b :: bs => by
    simp only [insertLe]
    split
    · simp [List.mem_cons]
    · simp only [List.mem_cons, mem_insertLe le a x bs]
      tauto

theorem mem_stableSortBy {α : Type} (le : α → α → Bool) (x : α) :
    ∀ l : List α, x ∈ stableSortBy le l ↔ x ∈ l
  | [] => Iff.rfl
  | b :: bs => by
    rw [stableSortBy_cons, mem_insertLe, mem_stableSortBy le x bs, List.mem_cons]

theorem head?_insertLe {α : Type} (le : α → α → Bool) (a : α) :
    ∀ l : List α, (insertLe le a l).head? = some a ∨ (insertLe le a l).head? = l.head?
  | [] => Or.inl rfl
  | b :: bs => by
    simp only [insertLe]
    split
    · exact Or.inl rfl
    · exact Or.inr rfl

theorem chain'_insertLe {α : Type} (le : α → α → Bool)
    (total : ∀ x y, le x y = false → le y x = true) (a : α) :
    ∀ l : List α, List.Chain' (fun x y => le x y = true) l →
      List.Chain' (fun x y => le x y = true) (insertLe le a l)
  | [], _ => List.chain'_singleton a
  | b :: bs, h => by
    simp only [insertLe]
    split
    next hab => exact List.chain'_cons.mpr ⟨hab, h⟩
    next hab =>
      have hba : le b a = true := total a b (by
        cases hle : le a b
        · rfl
        · exact absurd hle hab)
      refine List.chain'_cons'.mpr ⟨?_, chain'_insertLe le total a bs h.tail⟩
      intro y hy
      rcases head?_insertLe le a bs with hh | hh
      · rw [hh] at hy
        cases hy
        exact hba
      · rw [hh] at hy
        exact (List.chain'_cons'.mp h).1 y hy

theorem chain'_stableSortBy {α : Type} (le : α → α → Bool)
    (total : ∀ x y, le x y = false → le y x = true) :
    ∀ l : List α, List.Chain' (fun x y => le x y = true) (stableSortBy le l)
  | [] => List.chain'_nil
  | b :: bs => by
    rw [stableSortBy_cons]
    exact chain'_insertLe le total b _ (chain'_stableSortBy le total bs)

theorem chain'_take {α : Type} {R : α → α → Prop} :
    ∀ (l : List α) (n : Nat), List.Chain' R l → List.Chain' R (l.take n)
  | [], n, _ => by simp
  | a :: l, 0, _ => by simp
  | a :: l, n + 1, h => by
    rw [List.take_succ_cons]
    refine List.chain'_cons'.mpr ⟨?_, chain'_take l n h.tail⟩
    intro y hy
    have : y ∈ l.head? := by
      cases l with
      | nil => simp at hy
      | cons c cs =>
        cases n with
        | zero => simp at hy
        | succ m => simpa using hy
    exact (List.chain'_cons'.mp h).1 y this

theorem charsLe_total : ∀ xs ys : List Char,
    charsLe xs ys = false → charsLe ys xs = true
  | [], _, h => by simp [charsLe] at h
  | _ :: _, [], _ => rfl
  | a :: as, b :: bs, h => by
    simp only [charsLe] at h ⊢
    by_cases hab : a.toNat < b.toNat
    · simp [hab] at h
    · by_cases heq : a.toNat = b.toNat
      · have hba : ¬ b.toNat < a.toNat := by omega
        rw [if_neg hab, if_pos heq] at h
        rw [if_neg hba, if_pos heq.symm]
        exact charsLe_total as bs h
      · have hba : b.toNat < a.toNat := by omega
        simp [hba]

theorem dateLe_total (x y : String) : dateLe x y = false → dateLe y x = true :=
  charsLe_total x.toList y.toList

theorem insertLe_ne_nil {α : Type} (le : α → α → Bool) (a : α) (l : List α) :
    insertLe le a l ≠ [] := by
  cases l with
  | nil => simp [insertLe]
  | cons b bs =>
    simp only [insertLe]
    split <;> simp

theorem stableSortBy_eq_nil_iff {α : Type} (le : α → α → Bool) (l : List α) :
    stableSortBy le l = [] ↔ l = [] := by
  cases l with
  | nil => simp [stableSortBy]
  | cons b bs =>
    rw [stableSortBy_cons]
    constructor
    · intro h
      exact absurd h (insertLe_ne_nil le b _)
    · intro h
      exact absurd h (by simp)

/-
Claim theorems.
-/

/-- C2: if bulk submission (createTranscriptionBatch) fails during file
upload or external batch-job creation, no Bulk Job row is created and no
submitted unit's transcription_status changes from pending: the state is
returned exactly as it was and no batch id is produced. -/
theorem createTranscriptionBatch_allOrNothing (s : DBState)
    (files : List PendingRow) (up : Option String)
    (cr : Option (String × String)) (now : Nat)
    (h : up = none ∨ cr = none) :
    (createTranscriptionBatch s files up cr now).2 = s ∧
      (createTranscriptionBatch s files up cr now).1 = none := by
  rcases h with h | h
  · subst h
    exact ⟨rfl, rfl⟩
  · subst h
    cases up <;> exact ⟨rfl, rfl⟩

/-- Witness for C2 at a concrete state: upload fails while batch creation
would have succeeded; the three pending units of cex3 are untouched. -/
theorem createTranscriptionBatch_allOrNothing_witness :
    (createTranscriptionBatch cex3 (getPendingFiles cex3 10 none) none
        (some ("batch_x", "validating")) 0).2 = cex3 ∧
      (createTranscriptionBatch cex3 (getPendingFiles cex3 10 none) none
        (some ("batch_x", "validating")) 0).1 = none :=
  createTranscriptionBatch_allOrNothing cex3 (getPendingFiles cex3 10 none)
    none (some ("batch_x", "validating")) 0 (Or.inl rfl)

/-- C8: when the capability call of a synchronous transcription attempt with
a unit id throws an error that the selected service classifies as retryable
(the rate-limit / quota / overload substring classifiers of the source),
the unit's status afterwards is pending, never failed, and the returned
record reports a retryable failure. -/
theorem transcribeFile_retryable_pending (s : DBState) (i : Nat) (msg : String)
    (service modelName : String) (retry : String → Bool) (now : Nat)
    (_hcls : retry = baseIsRetryableError ∨ retry = openaiIsRetryableError)
    (hr : retry msg = true) :
    (∀ f ∈ ((transcribeFile s (some i) (TOutcome.thrown msg) service modelName
        retry now).2).document_files,
      f.id = i → f.transcription_status = TStatus.pending ∧
        f.transcription_status ≠ TStatus.failed) ∧
    (transcribeFile s (some i) (TOutcome.thrown msg) service modelName
        retry now).1 = { success := false, retryable := true } := by
  constructor
  · intro f hf hid
    simp only [transcribeFile, writeFile] at hf
    rcases List.mem_map.mp hf with ⟨f0, _, hf0⟩
    by_cases h0 : f0.id = i
    · rw [if_pos (by simpa using h0), hr] at hf0
      subst hf0
      exact ⟨rfl, by simp⟩
    · rw [if_neg (by simpa using h0)] at hf0
      subst hf0
      exact absurd hid h0
  · simp [transcribeFile, hr]

/-- Witness for C8: a 429 error from the OpenAI service on submitted unit 3
leaves it pending. -/
theorem transcribeFile_retryable_pending_witness :
    (∀ f ∈ ((transcribeFile wit8 (some 3)
        (TOutcome.thrown "Request failed with status code 429") "openai"
        "gpt-5-mini" openaiIsRetryableError 7).2).document_files,
      f.id = 3 → f.transcription_status = TStatus.pending ∧
        f.transcription_status ≠ TStatus.failed) ∧
    (transcribeFile wit8 (some 3)
        (TOutcome.thrown "Request failed with status code 429") "openai"
        "gpt-5-mini" openaiIsRetryableError 7).1 =
      { success := false, retryable := true } :=
  transcribeFile_retryable_pending wit8 3
    "Request failed with status code 429" "openai" "gpt-5-mini"
    openaiIsRetryableError 7 (Or.inr rfl) (by decide)

theorem length_take_le_nat {α : Type} : ∀ (n : Nat) (l : List α),
    (l.take n).length ≤ n
  | 0, _ => by simp
  | _ + 1, [] => by simp
  | n + 1, _ :: l => by
    rw [List.take_succ_cons, List.length_cons]
    exact Nat.succ_le_succ (length_take_le_nat n l)

/-- C3 counterexample: with pending units for a document dated 1943-01-02
whose parts are stored in order [2, 1] and a document dated 1943-01-01 with
part [1], getPendingFiles returns 1943-01-01/part1, then 1943-01-02/part2,
then 1943-01-02/part1 — not the part-index order [1, 1, 2] the claim
requires, because the query orders by document date only. -/
theorem getPendingFiles_partOrder_counterexample :
    ((getPendingFiles cex3 10 none).map (fun r => (r.date, r.part_number))) =
      [("1943-01-01", 1), ("1943-01-02", 2), ("1943-01-02", 1)] ∧
    ((getPendingFiles cex3 10 none).map (fun r => (r.date, r.part_number))) ≠
      [("1943-01-01", 1), ("1943-01-02", 1), ("1943-01-02", 2)] := by
  constructor
  · decide
  · decide

/-- C3 amended: for every call with any limit, getPendingFiles returns only
pending units, at most limit of them, ordered ascending by parent document
date; within equal dates the rows keep table order, so the part index plays
no role in the ordering. -/
theorem getPendingFiles_sortedByDate (s : DBState) (limit : Nat)
    (typeFilter : Option String) :
    List.Chain' (fun a b => dateLe a.date b.date = true)
      (getPendingFiles s limit typeFilter) ∧
    (∀ r ∈ getPendingFiles s limit typeFilter,
      r.transcription_status = TStatus.pending) ∧
    (getPendingFiles s limit typeFilter).length ≤ limit := by
  refine ⟨?_, ?_, ?_⟩
  · exact chain'_take _ limit
      (chain'_stableSortBy _ (fun a b h => dateLe_total a.date b.date h) _)
  · intro r hr
    have hr1 : r ∈ stableSortBy (fun a b => dateLe a.date b.date)
        ((joinFiles s).filter
          (fun r => r.transcription_status == TStatus.pending &&
            (match typeFilter with
             | some t => r.docType == t
             | none => true))) := List.take_subset _ _ hr
    have hr2 := (mem_stableSortBy _ r _).mp hr1
    have hr3 := (List.mem_filter.mp hr2).2
    have := (Bool.and_eq_true _ _).mp hr3
    simpa using this.1
  · exact length_take_le_nat limit _

/-- Witness for C3 amended at the example state: the instantiated ordering,
status and length facts for cex3 with limit 10 and no type filter. -/
theorem getPendingFiles_sortedByDate_witness :
    List.Chain' (fun a b => dateLe a.date b.date = true)
      (getPendingFiles cex3 10 none) ∧
    (∀ r ∈ getPendingFiles cex3 10 none,
      r.transcription_status = TStatus.pending) ∧
    (getPendingFiles cex3 10 none).length ≤ 10 :=
  getPendingFiles_sortedByDate cex3 10 none

/-- C6 counterexample, two failing inputs for the unconditional no-op.
First, the cex6 document has the stored summary "old", yet generateSummary
does not return it: with zero completed page transcriptions the call fails
before ever checking the stored summary.  Second, the cex6b document has a
stored summary too (the empty string), yet the call is not a no-op: JS
truthiness treats the empty summary as absent, so a fresh summary is
generated and written over it. -/
theorem generateSummary_noop_counterexample :
    (cex6.documents.find? (fun d => d.id == 1) = some cex6doc ∧
      cex6doc.summary = some "old" ∧
      (generateSummary cex6 1 (fun _ => some "new") 5).1 =
        SumResult.err "No completed transcriptions found for document 1") ∧
    (cex6b.documents.find? (fun d => d.id == 1) = some cex6bdoc ∧
      cex6bdoc.summary = some "" ∧
      cex6b.documents.map (fun d => d.summary_metadata.isSome) = [false] ∧
      ((generateSummary cex6b 1 (fun _ => some "new") 5).2).documents.map
        (fun d => d.summary_metadata.isSome) = [true]) := by
  refine ⟨⟨by decide, by decide, by decide⟩, by decide, by decide, by decide,
    by decide⟩

/-- C6 amended: for every document that already has a stored non-empty
(JS-truthy) summary and still has at least one completed page transcription,
generateSummary is a no-op: it returns the existing summary and its stored
metadata unchanged and performs no database write (so in particular a second
call right after a successful one is a no-op). -/
theorem generateSummary_existing_noop (s : DBState) (documentId : Nat)
    (capability : String → Option String) (now : Nat) (d : DocRow) (t : String)
    (hfind : s.documents.find? (fun d => d.id == documentId) = some d)
    (hsum : d.summary = some t) (hne0 : t ≠ "")
    (hne : s.document_files.filter
        (fun f => f.document_id == documentId &&
          f.transcription_status == TStatus.completed &&
          f.transcription.isSome) ≠ []) :
    generateSummary s documentId capability now =
      (SumResult.ok t d.summary_metadata true, s) := by
  have hne' : (stableSortBy (fun a b => decide (a.part_number ≤ b.part_number))
      (s.document_files.filter
        (fun f => f.document_id == documentId &&
          f.transcription_status == TStatus.completed &&
          f.transcription.isSome))).isEmpty = false := by
    rw [List.isEmpty_eq_false_iff_exists_mem]
    rcases List.exists_mem_of_ne_nil _ hne with ⟨x, hx⟩
    exact ⟨x, (mem_stableSortBy _ x _).mpr hx⟩
  have ht : strTruthy (some t) = true := by
    simp [strTruthy, hne0]
  unfold generateSummary getDocumentWithTranscriptions
  rw [hfind]
  simp only [hne', Bool.false_eq_true, if_false, hsum, ht, Option.getD_some,
    if_true]

/-- Witness for C6 amended: at cex7 (stored non-empty summary "old", one
completed transcription) the second call returns the old summary and leaves
the state untouched. -/
theorem generateSummary_existing_noop_witness :
    generateSummary cex7 1 (fun _ => some "new") 5 =
      (SumResult.ok "old" none true, cex7) :=
  generateSummary_existing_noop cex7 1 (fun _ => some "new") 5 cex6doc "old"
    (by decide) (by decide) (by decide) (by decide)

/-- C10: for every document that exists and has a stored summary but zero
completed page transcriptions, generateSummary returns a failure (success
false) instead of the existing summary, leaving the state unchanged: the
transcription fetch happens before the existing-summary check. -/
theorem generateSummary_failsWithoutTranscriptions (s : DBState)
    (documentId : Nat) (capability : String → Option String) (now : Nat)
    (d : DocRow) (t : String)
    (hfind : s.documents.find? (fun d => d.id == documentId) = some d)
    (_hsum : d.summary = some t)
    (hempty : s.document_files.filter
        (fun f => f.document_id == documentId &&
          f.transcription_status == TStatus.completed &&
          f.transcription.isSome) = []) :
    generateSummary s documentId capability now =
      (SumResult.err ("No completed transcriptions found for document " ++
        toString documentId), s) := by
  unfold generateSummary getDocumentWithTranscriptions
  rw [hfind]
  simp only [hempty]
  rfl

/-- Witness for C10: cex6's document has summary "old" and no completed
transcriptions; the call fails with the source's error message. -/
theorem generateSummary_failsWithoutTranscriptions_witness :
    generateSummary cex6 1 (fun _ => some "new") 5 =
      (SumResult.err "No completed transcriptions found for document 1",
        cex6) :=
  generateSummary_failsWithoutTranscriptions cex6 1 (fun _ => some "new") 5
    cex6doc "old" (by decide) (by decide) (by decide)

/-- C7 failing input, evaluated: generateBatchSummaries with force = true on
a document whose summary "old" is completed and non-empty (and which has a
completed transcription, so regeneration could run) does not regenerate:
generateSummary has no force path, returns the existing summary flagged
alreadyExists, and the state is unchanged, contradicting the claim (and the
source's own "Use force option to regenerate" message). -/
theorem generateBatchSummaries_force_noRegen :
    generateBatchSummaries cex7 [1] true (fun _ => some "new") 9 =
      ([BatchSumEntry.ran 1 (SumResult.ok "old" none true)], cex7) := by
  decide

/-- C9 counterexample: a result line carrying the empty text directly in
output_text is skipped (JS truthiness: an empty string is falsy, so the
reconciler counts an error and writes nothing), while the structured shape
with the same empty text completes the unit; so for the empty text the two
shapes do not both set the unit completed. -/
theorem applyLine_shapeFallback_counterexample :
    applyLine cb9 0 cex9
        (ResultLine.okLine "transcribe-file-1"
          { output := none, output_text := some "" }) = cex9 ∧
    ((applyLine cb9 0 cex9
        (ResultLine.okLine "transcribe-file-1"
          { output := some [msgItem ""], output_text := none })).document_files.map
      (fun f => f.transcription_status)) = [TStatus.completed] := by
  constructor
  · decide
  · decide

/-- C9 amended: for every non-empty text, a result line carrying it directly
in output_text and a result line carrying the identical text in the
structured output[].content[].text shape produce identical states, and both
set the corresponding unit to completed with the same exact trimmed text. -/
theorem applyLine_shapeFallback (s : DBState) (b : BatchRow) (now : Nat)
    (cid t : String) (i : Nat)
    (hid : parseCustomId cid = some i) (ht : t ≠ "") :
    applyLine b now s
        (ResultLine.okLine cid { output := none, output_text := some t }) =
      applyLine b now s
        (ResultLine.okLine cid
          { output := some [msgItem t], output_text := none }) ∧
    ∀ f ∈ (applyLine b now s
        (ResultLine.okLine cid
          { output := none, output_text := some t })).document_files,
      f.id = i → f.transcription_status = TStatus.completed ∧
        f.transcription = some t.trim := by
  have hbeq : (t == "") = false := by
    cases h : t == "" with
    | true => exact absurd (by simpa using h) ht
    | false => rfl
  have he1 : extractText { output := none, output_text := some t } =
      some t.trim := by
    simp [extractText, hbeq]
  have he2 : extractText { output := some [msgItem t], output_text := none } =
      some t.trim := rfl
  constructor
  · simp only [applyLine, he1, he2]
  · intro f hf hfi
    simp only [applyLine, he1, hid, writeFile] at hf
    rcases List.mem_map.mp hf with ⟨f0, _, hf0⟩
    by_cases h0 : f0.id = i
    · rw [if_pos (by simpa using h0)] at hf0
      subst hf0
      exact ⟨rfl, rfl⟩
    · rw [if_neg (by simpa using h0)] at hf0
      subst hf0
      exact absurd hfi h0

/-- Witness for C9 amended: the two shapes of the text "Hello. " both
complete unit 1 of cex9 with the trimmed text. -/
theorem applyLine_shapeFallback_witness :
    applyLine cb9 0 cex9
        (ResultLine.okLine "transcribe-file-1"
          { output := none, output_text := some "Hello. " }) =
      applyLine cb9 0 cex9
        (ResultLine.okLine "transcribe-file-1"
          { output := some [msgItem "Hello. "], output_text := none }) ∧
    ∀ f ∈ (applyLine cb9 0 cex9
        (ResultLine.okLine "transcribe-file-1"
          { output := none, output_text := some "Hello. " })).document_files,
      f.id = 1 → f.transcription_status = TStatus.completed ∧
        f.transcription = some "Hello. ".trim :=
  applyLine_shapeFallback cex9 cb9 0 "transcribe-file-1" "Hello. " 1
    (by decide) (by decide)

theorem applyLine_batches (b : BatchRow) (now : Nat) (st : DBState) (l : ResultLine) :
    (applyLine b now st l).transcription_batches = st.transcription_batches := by
  cases l with
  | parseFail => rfl
  | errLine cid msg =>
    simp only [applyLine]
    cases parseCustomId cid <;> rfl
  | okLine cid body =>
    simp only [applyLine]
    cases extractText body with
    | none => rfl
    | some txt => cases parseCustomId cid <;> rfl

theorem foldl_applyLine_batches (b : BatchRow) (now : Nat) :
    ∀ (ls : List ResultLine) (st : DBState),
      (ls.foldl (applyLine b now) st).transcription_batches =
        st.transcription_batches
  | [], _ => rfl
  | l :: ls, st => by
    rw [List.foldl_cons, foldl_applyLine_batches b now ls _, applyLine_batches]

theorem rrStep_none {dl : String → List ResultLine} {now : Nat} {st : DBState}
    {b : BatchRow} (h : b.output_file_id = none) : rrStep dl now st b = st := by
  simp [rrStep, h]

theorem rrStep_batches {dl : String → List ResultLine} {now : Nat}
    {st : DBState} {b : BatchRow} {ofid : String}
    (h : b.output_file_id = some ofid) :
    (rrStep dl now st b).transcription_batches =
      st.transcription_batches.map
        (fun r => if r.batch_id == b.batch_id
          then { r with processed_at := some now } else r) := by
  simp only [rrStep, h, writeBatch]
  rw [foldl_applyLine_batches]

theorem rrFold_unmarked (dl : String → List ResultLine) (now : Nat) :
    ∀ (bs : List BatchRow) (st : DBState) (r : BatchRow),
      r ∈ (bs.foldl (rrStep dl now) st).transcription_batches →
      r.processed_at = none →
      r ∈ st.transcription_batches ∧
        ∀ b ∈ bs, b.output_file_id.isSome = true → b.batch_id ≠ r.batch_id
  | [], _, r, hr, _ => ⟨hr, by simp⟩
  | b :: bs, st, r, hr, hnone => by
    rw [List.foldl_cons] at hr
    obtain ⟨hr1, hrest⟩ := rrFold_unmarked dl now bs (rrStep dl now st b) r hr hnone
    cases hob : b.output_file_id with
    | none =>
      rw [rrStep_none hob] at hr1
      refine ⟨hr1, ?_⟩
      intro b' hb' hsome
      rcases List.mem_cons.mp hb' with hb' | hb'
      · subst hb'
        rw [hob] at hsome
        simp at hsome
      · exact hrest b' hb' hsome
    | some ofid =>
      rw [rrStep_batches hob] at hr1
      rcases List.mem_map.mp hr1 with ⟨r0, hr0, heq⟩
      split at heq
      next hcond =>
        rw [← heq] at hnone
        simp at hnone
      next hcond =>
        subst heq
        refine ⟨hr0, ?_⟩
        intro b' hb' hsome
        rcases List.mem_cons.mp hb' with hb' | hb'
        · subst hb'
          intro hid
          exact hcond (by simp [hid])
        · exact hrest b' hb' hsome

theorem rrFold_id (dl : String → List ResultLine) (now : Nat) :
    ∀ (bs : List BatchRow) (st : DBState),
      (∀ b ∈ bs, b.output_file_id = none) →
      bs.foldl (rrStep dl now) st = st
  | [], _, _ => rfl
  | b :: bs, st, h => by
    rw [List.foldl_cons, rrStep_none (h b (List.mem_cons_self b bs))]
    exact rrFold_id dl now bs st (fun b' hb' => h b' (List.mem_cons_of_mem b hb'))

theorem rrStep_preserves_marker (dl : String → List ResultLine) (now : Nat)
    (bid : String) (st : DBState) (b : BatchRow)
    (h : ∀ r ∈ st.transcription_batches, r.batch_id = bid →
      r.processed_at.isSome = true) :
    ∀ r ∈ (rrStep dl now st b).transcription_batches, r.batch_id = bid →
      r.processed_at.isSome = true := by
  intro r hr hrid
  cases hob : b.output_file_id with
  | none =>
    rw [rrStep_none hob] at hr
    exact h r hr hrid
  | some ofid =>
    rw [rrStep_batches hob] at hr
    rcases List.mem_map.mp hr with ⟨r0, hr0, heq⟩
    split at heq
    next => rw [← heq]; rfl
    next =>
      subst heq
      exact h r0 hr0 hrid

theorem rrFold_marker (dl : String → List ResultLine) (now : Nat) (bid : String) :
    ∀ (bs : List BatchRow) (st : DBState),
      (∀ r ∈ st.transcription_batches, r.batch_id = bid →
        r.processed_at.isSome = true) →
      ∀ r ∈ (bs.foldl (rrStep dl now) st).transcription_batches,
        r.batch_id = bid → r.processed_at.isSome = true
  | [], _, h => h
  | b :: bs, st, h => by
    rw [List.foldl_cons]
    exact rrFold_marker dl now bid bs _ (rrStep_preserves_marker dl now bid st b h)

theorem rrStep_marks (dl : String → List ResultLine) (now : Nat) (st : DBState)
    (b : BatchRow) (ofid : String) (hob : b.output_file_id = some ofid) :
    ∀ r ∈ (rrStep dl now st b).transcription_batches, r.batch_id = b.batch_id →
      r.processed_at.isSome = true := by
  intro r hr hrid
  rw [rrStep_batches hob] at hr
  rcases List.mem_map.mp hr with ⟨r0, hr0, heq⟩
  split at heq
  next => rw [← heq]; rfl
  next hcond =>
    subst heq
    exact absurd (by simp [hrid]) hcond

/-- C1: processTranscriptionResults is at-most-once.  Applying it a second
time (with any download oracle and timestamp) to the state produced by a
first application changes nothing, because a bulk job is selected only while
its processed marker is null; and for every selected job that has an output
file the marker is set by the first pass no matter what the downloaded lines
contain (parse failures included), so no job's output is ever reprocessed. -/
theorem processTranscriptionResults_atMostOnce
    (dl dl2 : String → List ResultLine) (now1 now2 : Nat) (s : DBState) :
    processTranscriptionResults dl2 now2 (processTranscriptionResults dl now1 s) =
      processTranscriptionResults dl now1 s ∧
    ∀ b ∈ rrSelect s, ∀ ofid, b.output_file_id = some ofid →
      ∀ r ∈ (processTranscriptionResults dl now1 s).transcription_batches,
        r.batch_id = b.batch_id → r.processed_at.isSome = true := by
  constructor
  · unfold processTranscriptionResults
    apply rrFold_id
    intro b hb
    have hb' : b ∈ List.filter
        (fun b => b.status == "completed" && b.processed_at.isNone)
        ((rrSelect s).foldl (rrStep dl now1) s).transcription_batches := hb
    have hmem := List.mem_filter.mp hb'
    have hb1 : b ∈ ((rrSelect s).foldl (rrStep dl now1) s).transcription_batches :=
      hmem.1
    have hcond := hmem.2
    have hnone : b.processed_at = none := by
      have := (Bool.and_eq_true _ _).mp hcond
      simpa [Option.isNone_iff_eq_none] using this.2
    obtain ⟨hin, hforall⟩ := rrFold_unmarked dl now1 (rrSelect s) s b hb1 hnone
    have hbsel : b ∈ rrSelect s := List.mem_filter.mpr ⟨hin, hcond⟩
    cases hob : b.output_file_id with
    | none => rfl
    | some ofid =>
      exact absurd rfl (hforall b hbsel (by simp [hob]))
  · intro b hb ofid hob r hr hrid
    rcases List.append_of_mem hb with ⟨l1, l2, hsplit⟩
    unfold processTranscriptionResults at hr
    rw [hsplit, List.foldl_append, List.foldl_cons] at hr
    exact rrFold_marker dl now1 b.batch_id l2 _
      (rrStep_marks dl now1 _ b ofid hob) r hr hrid

/-- Witness for C1 at a concrete state: one completed unprocessed bulk job
with one successful line; the second application is the identity and the
job's marker is set. -/
theorem processTranscriptionResults_atMostOnce_witness :
    processTranscriptionResults wit1dl 9 (processTranscriptionResults wit1dl 0 cex9) =
      processTranscriptionResults wit1dl 0 cex9 ∧
    ∀ b ∈ rrSelect cex9, ∀ ofid, b.output_file_id = some ofid →
      ∀ r ∈ (processTranscriptionResults wit1dl 0 cex9).transcription_batches,
        r.batch_id = b.batch_id → r.processed_at.isSome = true :=
  processTranscriptionResults_atMostOnce wit1dl wit1dl 0 9 cex9

theorem csStep_none {now : Nat} {st : DBState} {b : BatchRow}
    (h : b.file_ids = none) : csStep now st b = st := by
  simp [csStep, h]

theorem csStep_files {now : Nat} {st : DBState} {b : BatchRow} {ids : List Nat}
    (h : b.file_ids = some ids) :
    (csStep now st b).document_files =
      st.document_files.map
        (fun f => if f.id ∈ ids
          then { f with transcription_status := TStatus.pending,
                        transcription_metadata := none }
          else f) := by
  simp [csStep, h, writeFilesIn, writeBatch]

theorem csStep_batches {now : Nat} {st : DBState} {b : BatchRow} {ids : List Nat}
    (h : b.file_ids = some ids) :
    (csStep now st b).transcription_batches =
      st.transcription_batches.map
        (fun r => if r.batch_id == b.batch_id
          then { r with processed_at := some now,
                        description := b.description ++ " [CLEANED UP - FAILED]" }
          else r) := by
  simp [csStep, h, writeFilesIn, writeBatch]

theorem csStep_preserves_reset (now : Nat) (ids : List Nat) (st : DBState)
    (b : BatchRow)
    (h : ∀ f ∈ st.document_files, f.id ∈ ids →
      f.transcription_status = TStatus.pending ∧ f.transcription_metadata = none) :
    ∀ f ∈ (csStep now st b).document_files, f.id ∈ ids →
      f.transcription_status = TStatus.pending ∧ f.transcription_metadata = none := by
  intro f hf hfi
  cases hob : b.file_ids with
  | none =>
    rw [csStep_none hob] at hf
    exact h f hf hfi
  | some ids2 =>
    rw [csStep_files hob] at hf
    rcases List.mem_map.mp hf with ⟨f0, hf0, heq⟩
    split at heq
    next => rw [← heq]; exact ⟨rfl, rfl⟩
    next =>
      subst heq
      exact h f0 hf0 hfi

theorem csFold_reset (now : Nat) (ids : List Nat) :
    ∀ (bs : List BatchRow) (st : DBState),
      (∀ f ∈ st.document_files, f.id ∈ ids →
        f.transcription_status = TStatus.pending ∧
          f.transcription_metadata = none) →
      ∀ f ∈ (bs.foldl (csStep now) st).document_files, f.id ∈ ids →
        f.transcription_status = TStatus.pending ∧ f.transcription_metadata = none
  | [], _, h => h
  | b :: bs, st, h => by
    rw [List.foldl_cons]
    exact csFold_reset now ids bs _ (csStep_preserves_reset now ids st b h)

theorem csStep_resets (now : Nat) (st : DBState) (b : BatchRow) (ids : List Nat)
    (hids : b.file_ids = some ids) :
    ∀ f ∈ (csStep now st b).document_files, f.id ∈ ids →
      f.transcription_status = TStatus.pending ∧ f.transcription_metadata = none := by
  intro f hf hfi
  rw [csStep_files hids] at hf
  rcases List.mem_map.mp hf with ⟨f0, hf0, heq⟩
  split at heq
  next => rw [← heq]; exact ⟨rfl, rfl⟩
  next hcond =>
    subst heq
    exact absurd hfi hcond

theorem csStep_preserves_marker (now : Nat) (bid : String) (st : DBState)
    (b : BatchRow)
    (h : ∀ r ∈ st.transcription_batches, r.batch_id = bid →
      r.processed_at = some now ∧
        ∃ d0, r.description = d0 ++ " [CLEANED UP - FAILED]") :
    ∀ r ∈ (csStep now st b).transcription_batches, r.batch_id = bid →
      r.processed_at = some now ∧
        ∃ d0, r.description = d0 ++ " [CLEANED UP - FAILED]" := by
  intro r hr hrid
  cases hob : b.file_ids with
  | none =>
    rw [csStep_none hob] at hr
    exact h r hr hrid
  | some ids =>
    rw [csStep_batches hob] at hr
    rcases List.mem_map.mp hr with ⟨r0, hr0, heq⟩
    split at heq
    next => rw [← heq]; exact ⟨rfl, b.description, rfl⟩
    next =>
      subst heq
      exact h r0 hr0 hrid

theorem csFold_marker (now : Nat) (bid : String) :
    ∀ (bs : List BatchRow) (st : DBState),
      (∀ r ∈ st.transcription_batches, r.batch_id = bid →
        r.processed_at = some now ∧
          ∃ d0, r.description = d0 ++ " [CLEANED UP - FAILED]") →
      ∀ r ∈ (bs.foldl (csStep now) st).transcription_batches, r.batch_id = bid →
        r.processed_at = some now ∧
          ∃ d0, r.description = d0 ++ " [CLEANED UP - FAILED]"
  | [], _, h => h
  | b :: bs, st, h => by
    rw [List.foldl_cons]
    exact csFold_marker now bid bs _ (csStep_preserves_marker now bid st b h)

theorem csStep_marks (now : Nat) (st : DBState) (b : BatchRow) (ids : List Nat)
    (hids : b.file_ids = some ids) :
    ∀ r ∈ (csStep now st b).transcription_batches, r.batch_id = b.batch_id →
      r.processed_at = some now ∧
        ∃ d0, r.description = d0 ++ " [CLEANED UP - FAILED]" := by
  intro r hr hrid
  rw [csStep_batches hids] at hr
  rcases List.mem_map.mp hr with ⟨r0, hr0, heq⟩
  split at heq
  next => rw [← heq]; exact ⟨rfl, b.description, rfl⟩
  next hcond =>
    subst heq
    exact absurd (by simp [hrid]) hcond

theorem csFold_unmarked (now : Nat) :
    ∀ (bs : List BatchRow) (st : DBState) (r : BatchRow),
      r ∈ (bs.foldl (csStep now) st).transcription_batches →
      r.processed_at = none →
      r ∈ st.transcription_batches ∧
        ∀ b ∈ bs, b.file_ids.isSome = true → b.batch_id ≠ r.batch_id
  | [], _, r, hr, _ => ⟨hr, by simp⟩
  | b :: bs, st, r, hr, hnone => by
    rw [List.foldl_cons] at hr
    obtain ⟨hr1, hrest⟩ := csFold_unmarked now bs (csStep now st b) r hr hnone
    cases hob : b.file_ids with
    | none =>
      rw [csStep_none hob] at hr1
      refine ⟨hr1, ?_⟩
      intro b' hb' hsome
      rcases List.mem_cons.mp hb' with hb' | hb'
      · subst hb'
        rw [hob] at hsome
        simp at hsome
      · exact hrest b' hb' hsome
    | some ids =>
      rw [csStep_batches hob] at hr1
      rcases List.mem_map.mp hr1 with ⟨r0, hr0, heq⟩
      split at heq
      next =>
        rw [← heq] at hnone
        simp at hnone
      next hcond =>
        subst heq
        refine ⟨hr0, ?_⟩
        intro b' hb' hsome
        rcases List.mem_cons.mp hb' with hb' | hb'
        · subst hb'
          intro hid
          exact hcond (by simp [hid])
        · exact hrest b' hb' hsome

theorem csFold_id (now : Nat) :
    ∀ (bs : List BatchRow) (st : DBState),
      (∀ b ∈ bs, b.file_ids = none) → bs.foldl (csStep now) st = st
  | [], _, _ => rfl
  | b :: bs, st, h => by
    rw [List.foldl_cons, csStep_none (h b (List.mem_cons_self b bs))]
    exact csFold_id now bs st (fun b' hb' => h b' (List.mem_cons_of_mem b hb'))

/-- C4 counterexample: the recovery sweep resets the member unit of a failed
batch to pending and clears its metadata, but the stale result text is left
in the transcription column, so the claim's "any stale result and metadata
cleared" is false on the result part. -/
theorem cleanupFailedBatches_staleResult_counterexample :
    ((cleanupFailedBatches 2 cex4).document_files.map
      (fun f => (f.transcription_status, f.transcription,
        f.transcription_metadata))) =
      [(TStatus.pending, some "stale text", none)] ∧
    ((cleanupFailedBatches 2 cex4).document_files.map
      (fun f => f.transcription)) ≠ [none] := by
  constructor
  · decide
  · decide

/-- C4 amended: for every completed bulk job with a non-zero failure count
and null processed marker whose membership list decodes, one sweep leaves
every member unit pending with metadata cleared (the stale result text is
retained), sets the job's processed marker with the cleaned-up annotation,
and a second sweep is a no-op. -/
theorem cleanupFailedBatches_resets (s : DBState) (now : Nat) (b : BatchRow)
    (ids : List Nat) (hb : b ∈ csSelect s) (hids : b.file_ids = some ids) :
    (∀ f ∈ (cleanupFailedBatches now s).document_files, f.id ∈ ids →
      f.transcription_status = TStatus.pending ∧
        f.transcription_metadata = none) ∧
    (∀ r ∈ (cleanupFailedBatches now s).transcription_batches,
      r.batch_id = b.batch_id → r.processed_at = some now ∧
        ∃ d0, r.description = d0 ++ " [CLEANED UP - FAILED]") ∧
    ∀ now2, cleanupFailedBatches now2 (cleanupFailedBatches now s) =
      cleanupFailedBatches now s := by
  rcases List.append_of_mem hb with ⟨l1, l2, hsplit⟩
  refine ⟨?_, ?_, ?_⟩
  · intro f hf hfi
    unfold cleanupFailedBatches at hf
    rw [hsplit, List.foldl_append, List.foldl_cons] at hf
    exact csFold_reset now ids l2 _ (csStep_resets now _ b ids hids) f hf hfi
  · intro r hr hrid
    unfold cleanupFailedBatches at hr
    rw [hsplit, List.foldl_append, List.foldl_cons] at hr
    exact csFold_marker now b.batch_id l2 _ (csStep_marks now _ b ids hids) r hr hrid
  · intro now2
    unfold cleanupFailedBatches
    apply csFold_id
    intro b' hb'
    have hb'' : b' ∈ List.filter
        (fun x => x.status == "completed" && decide (0 < x.failed_count) &&
          x.processed_at.isNone)
        ((csSelect s).foldl (csStep now) s).transcription_batches := hb'
    have hmem := List.mem_filter.mp hb''
    have hcond := hmem.2
    have hnone : b'.processed_at = none := by
      have := (Bool.and_eq_true _ _).mp hcond
      simpa [Option.isNone_iff_eq_none] using this.2
    obtain ⟨hin, hforall⟩ := csFold_unmarked now (csSelect s) s b' hmem.1 hnone
    have hbsel : b' ∈ csSelect s := List.mem_filter.mpr ⟨hin, hcond⟩
    cases hob : b'.file_ids with
    | none => rfl
    | some ids2 =>
      exact absurd rfl (hforall b' hbsel (by simp [hob]))

/-- Witness for C4 amended at cex4: the member unit 1 ends pending with null
metadata, the batch is annotated and marked, and a second sweep is a no-op. -/
theorem cleanupFailedBatches_resets_witness :
    (∀ f ∈ (cleanupFailedBatches 2 cex4).document_files, f.id ∈ [1] →
      f.transcription_status = TStatus.pending ∧
        f.transcription_metadata = none) ∧
    (∀ r ∈ (cleanupFailedBatches 2 cex4).transcription_batches,
      r.batch_id = cex4batch.batch_id → r.processed_at = some 2 ∧
        ∃ d0, r.description = d0 ++ " [CLEANED UP - FAILED]") ∧
    ∀ now2, cleanupFailedBatches now2 (cleanupFailedBatches 2 cex4) =
      cleanupFailedBatches 2 cex4 :=
  cleanupFailedBatches_resets cex4 2 cex4batch [1] (by decide) rfl

theorem files_foldl_map {β : Type} (step : DBState → β → DBState)
    (φ : β → FileRow → FileRow)
    (h : ∀ st b, (step st b).document_files = st.document_files.map (φ b)) :
    ∀ (bs : List β) (st : DBState),
      (bs.foldl step st).document_files =
        st.document_files.map (fun f => bs.foldl (fun fr b => φ b fr) f)
  | [], st => by
    rw [List.foldl_nil]
    exact (List.map_id' _).symm
  | b :: bs, st => by
    rw [List.foldl_cons, files_foldl_map step φ h bs _, h st b, List.map_map]
    rfl

theorem batches_foldl_map {β : Type} (step : DBState → β → DBState)
    (ψ : β → BatchRow → BatchRow)
    (h : ∀ st b, (step st b).transcription_batches =
      st.transcription_batches.map (ψ b)) :
    ∀ (bs : List β) (st : DBState),
      (bs.foldl step st).transcription_batches =
        st.transcription_batches.map (fun r => bs.foldl (fun rr b => ψ b rr) r)
  | [], st => by
    rw [List.foldl_nil]
    exact (List.map_id' _).symm
  | b :: bs, st => by
    rw [List.foldl_cons, batches_foldl_map step ψ h bs _, h st b, List.map_map]
    rfl

theorem mapExt {α β : Type} (f g : α → β) (l : List α) (h : ∀ a, f a = g a) :
    l.map f = l.map g := by
  induction l with
  | nil => rfl
  | cons a l ih => simp only [List.map_cons, h a, ih]

theorem map_eq_self_of_id {α : Type} (f : α → α) (l : List α)
    (h : ∀ a, f a = a) : l.map f = l := by
  rw [mapExt f (fun a => a) l h, List.map_id']

theorem applyLine_files (b : BatchRow) (now : Nat) (st : DBState)
    (l : ResultLine) :
    (applyLine b now st l).document_files =
      st.document_files.map (lineF b now l) := by
  cases l with
  | parseFail => exact (map_eq_self_of_id _ _ (fun f => rfl)).symm
  | errLine cid msg =>
    cases hp : parseCustomId cid with
    | none =>
      simp only [applyLine, hp]
      exact (map_eq_self_of_id _ _ (fun f => by simp [lineF, hp])).symm
    | some fid =>
      simp only [applyLine, hp, writeFile]
      exact mapExt _ _ _ (fun f => by simp [lineF, hp])
  | okLine cid body =>
    cases he : extractText body with
    | none =>
      simp only [applyLine, he]
      exact (map_eq_self_of_id _ _ (fun f => by simp [lineF, he])).symm
    | some txt =>
      cases hp : parseCustomId cid with
      | none =>
        simp only [applyLine, he, hp]
        exact (map_eq_self_of_id _ _ (fun f => by simp [lineF, he, hp])).symm
      | some fid =>
        simp only [applyLine, he, hp, writeFile]
        exact mapExt _ _ _ (fun f => by simp [lineF, he, hp])

theorem rrStep_files (dl : String → List ResultLine) (now : Nat) (st : DBState)
    (b : BatchRow) :
    (rrStep dl now st b).document_files =
      st.document_files.map (pointB dl now b) := by
  cases hob : b.output_file_id with
  | none =>
    rw [rrStep_none hob]
    exact (map_eq_self_of_id _ _ (fun f => by simp [pointB, hob])).symm
  | some ofid =>
    simp only [rrStep, hob, writeBatch]
    rw [files_foldl_map (applyLine b now) (lineF b now) (applyLine_files b now)
      (dl ofid) st]
    exact mapExt _ _ _ (fun f => by simp [pointB, hob])

theorem processTranscriptionResults_files (dl : String → List ResultLine)
    (now : Nat) (s : DBState) :
    (processTranscriptionResults dl now s).document_files =
      s.document_files.map (pointR dl now (rrSelect s)) := by
  unfold processTranscriptionResults
  rw [files_foldl_map (rrStep dl now) (pointB dl now) (rrStep_files dl now)
    (rrSelect s) s]
  rfl

theorem rrStep_batches_pt (dl : String → List ResultLine) (now : Nat)
    (st : DBState) (b : BatchRow) :
    (rrStep dl now st b).transcription_batches =
      st.transcription_batches.map (rMarkStep now b) := by
  cases hob : b.output_file_id with
  | none =>
    rw [rrStep_none hob]
    exact (map_eq_self_of_id _ _ (fun r => by simp [rMarkStep, hob])).symm
  | some ofid =>
    rw [rrStep_batches hob]
    exact mapExt _ _ _ (fun r => by simp [rMarkStep, hob])

theorem processTranscriptionResults_batches (dl : String → List ResultLine)
    (now : Nat) (s : DBState) :
    (processTranscriptionResults dl now s).transcription_batches =
      s.transcription_batches.map (rMark now (rrSelect s)) := by
  unfold processTranscriptionResults
  rw [batches_foldl_map (rrStep dl now) (rMarkStep now)
    (rrStep_batches_pt dl now) (rrSelect s) s]
  rfl

theorem csStep_files_pt (now : Nat) (st : DBState) (b : BatchRow) :
    (csStep now st b).document_files = st.document_files.map (pointCB b) := by
  cases hob : b.file_ids with
  | none =>
    rw [csStep_none hob]
    exact (map_eq_self_of_id _ _ (fun f => by simp [pointCB, hob])).symm
  | some ids =>
    rw [csStep_files hob]
    exact mapExt _ _ _ (fun f => by simp [pointCB, hob])

theorem cleanupFailedBatches_files (now : Nat) (s : DBState) :
    (cleanupFailedBatches now s).document_files =
      s.document_files.map (pointC (csSelect s)) := by
  unfold cleanupFailedBatches
  rw [files_foldl_map (csStep now) pointCB (csStep_files_pt now) (csSelect s) s]
  rfl

theorem csStep_batches_pt (now : Nat) (st : DBState) (b : BatchRow) :
    (csStep now st b).transcription_batches =
      st.transcription_batches.map (cMarkStep now b) := by
  cases hob : b.file_ids with
  | none =>
    rw [csStep_none hob]
    exact (map_eq_self_of_id _ _ (fun r => by simp [cMarkStep, hob])).symm
  | some ids =>
    rw [csStep_batches hob]
    exact mapExt _ _ _ (fun r => by simp [cMarkStep, hob])

theorem cleanupFailedBatches_batches (now : Nat) (s : DBState) :
    (cleanupFailedBatches now s).transcription_batches =
      s.transcription_batches.map (cMark now (csSelect s)) := by
  unfold cleanupFailedBatches
  rw [batches_foldl_map (csStep now) (cMarkStep now)
    (csStep_batches_pt now) (csSelect s) s]
  rfl

theorem transcribeFile_files (st : DBState) (i : Nat) (o : TOutcome)
    (service modelName : String) (retry : String → Bool) (now : Nat) :
    ((transcribeFile st (some i) o service modelName retry now).2).document_files =
      st.document_files.map (tfRowF i o service modelName retry now) := by
  cases o with
  | ok txt => rfl
  | thrown msg => rfl

theorem transcribeFile_batches (st : DBState) (fid : Option Nat) (o : TOutcome)
    (service modelName : String) (retry : String → Bool) (now : Nat) :
    ((transcribeFile st fid o service modelName retry now).2).transcription_batches =
      st.transcription_batches := by
  cases o <;> cases fid <;> rfl

theorem runnerPass_files (limit : Nat) (tf : Option String)
    (outcomes : Nat → TOutcome) (service modelName : String)
    (retry : String → Bool) (now : Nat) (s : DBState) :
    (runnerPass limit tf outcomes service modelName retry now s).document_files =
      s.document_files.map
        (pointRun outcomes service modelName retry now (getPendingFiles s limit tf)) := by
  unfold runnerPass
  rw [files_foldl_map
    (fun st r => (transcribeFile st (some r.id) (outcomes r.id) service
      modelName retry now).2)
    (fun r => tfRowF r.id (outcomes r.id) service modelName retry now)
    (fun st r => transcribeFile_files st r.id (outcomes r.id) service
      modelName retry now)
    (getPendingFiles s limit tf) s]
  rfl

theorem runnerPass_batches (limit : Nat) (tf : Option String)
    (outcomes : Nat → TOutcome) (service modelName : String)
    (retry : String → Bool) (now : Nat) (s : DBState) :
    (runnerPass limit tf outcomes service modelName retry now s).transcription_batches =
      s.transcription_batches := by
  unfold runnerPass
  generalize getPendingFiles s limit tf = rows
  induction rows generalizing s with
  | nil => rfl
  | cons r rows ih =>
    rw [List.foldl_cons]
    rw [ih]
    exact transcribeFile_batches s (some r.id) (outcomes r.id) service
      modelName retry now

theorem trackStep_files (api : String → ApiBatch) (st : DBState) (b : BatchRow) :
    (trackStep api st b).document_files = st.document_files := by
  cases h : (api b.batch_id).status == b.status with
  | true => simp [trackStep, h]
  | false => simp [trackStep, h, writeBatch]

theorem trackStep_batches_pt (api : String → ApiBatch) (st : DBState)
    (b : BatchRow) :
    (trackStep api st b).transcription_batches =
      st.transcription_batches.map (trackStepRow api b) := by
  cases h : (api b.batch_id).status == b.status with
  | true =>
    have hstep : trackStep api st b = st := by simp [trackStep, h]
    rw [hstep]
    exact (map_eq_self_of_id _ _ (fun r => by simp [trackStepRow, h])).symm
  | false =>
    simp only [trackStep, h, Bool.false_eq_true, if_false, writeBatch]
    exact mapExt _ _ _ (fun r => by simp [trackStepRow, h])

theorem checkTranscriptionBatches_files (api : String → ApiBatch) (s : DBState) :
    (checkTranscriptionBatches api s).document_files = s.document_files := by
  unfold checkTranscriptionBatches
  generalize s.transcription_batches.filter (fun b => b.processed_at.isNone) = bs
  induction bs generalizing s with
  | nil => rfl
  | cons b bs ih =>
    rw [List.foldl_cons, ih, trackStep_files]

theorem checkTranscriptionBatches_batches (api : String → ApiBatch) (s : DBState) :
    (checkTranscriptionBatches api s).transcription_batches =
      s.transcription_batches.map
        (trackRows api
          (s.transcription_batches.filter (fun b => b.processed_at.isNone))) := by
  unfold checkTranscriptionBatches
  rw [batches_foldl_map (trackStep api) (trackStepRow api)
    (trackStep_batches_pt api) _ s]
  rfl

theorem lineF_id (b : BatchRow) (now : Nat) (l : ResultLine) (f : FileRow) :
    (lineF b now l f).id = f.id := by
  cases l with
  | parseFail => rfl
  | errLine cid msg =>
    cases hp : parseCustomId cid with
    | none => simp [lineF, hp]
    | some fid =>
      simp only [lineF, hp]
      split <;> rfl
  | okLine cid body =>
    cases he : extractText body with
    | none => simp [lineF, he]
    | some txt =>
      cases hp : parseCustomId cid with
      | none => simp [lineF, he, hp]
      | some fid =>
        simp only [lineF, he, hp]
        split <;> rfl

theorem lineFold_id (b : BatchRow) (now : Nat) :
    ∀ (ls : List ResultLine) (f : FileRow),
      (ls.foldl (fun fr l => lineF b now l fr) f).id = f.id
  | [], _ => rfl
  | l :: ls, f => by
    rw [List.foldl_cons, lineFold_id b now ls _, lineF_id]

theorem pointB_id (dl : String → List ResultLine) (now : Nat) (b : BatchRow)
    (f : FileRow) : (pointB dl now b f).id = f.id := by
  cases hob : b.output_file_id with
  | none => simp [pointB, hob]
  | some ofid => simp [pointB, hob, lineFold_id]

theorem pointR_id (dl : String → List ResultLine) (now : Nat) :
    ∀ (bs : List BatchRow) (f : FileRow), (pointR dl now bs f).id = f.id
  | [], _ => rfl
  | b :: bs, f => by
    have h1 : pointR dl now (b :: bs) f = pointR dl now bs (pointB dl now b f) := rfl
    rw [h1, pointR_id dl now bs _, pointB_id]

theorem pointCB_id (b : BatchRow) (f : FileRow) : (pointCB b f).id = f.id := by
  cases hob : b.file_ids with
  | none => simp [pointCB, hob]
  | some ids =>
    simp only [pointCB, hob]
    split <;> rfl

theorem pointC_id : ∀ (bs : List BatchRow) (f : FileRow),
    (pointC bs f).id = f.id
  | [], _ => rfl
  | b :: bs, f => by
    have h1 : pointC (b :: bs) f = pointC bs (pointCB b f) := rfl
    rw [h1, pointC_id bs _, pointCB_id]

theorem tfRowF_id (i : Nat) (o : TOutcome) (service modelName : String)
    (retry : String → Bool) (now : Nat) (f : FileRow) :
    (tfRowF i o service modelName retry now f).id = f.id := by
  simp only [tfRowF]
  split
  · cases o <;> rfl
  · rfl

theorem pointRun_id (outcomes : Nat → TOutcome) (service modelName : String)
    (retry : String → Bool) (now : Nat) :
    ∀ (rows : List PendingRow) (f : FileRow),
      (pointRun outcomes service modelName retry now rows f).id = f.id
  | [], _ => rfl
  | r :: rows, f => by
    have h1 : pointRun outcomes service modelName retry now (r :: rows) f =
        pointRun outcomes service modelName retry now rows
          (tfRowF r.id (outcomes r.id) service modelName retry now f) := rfl
    rw [h1, pointRun_id outcomes service modelName retry now rows _, tfRowF_id]

theorem lineF_skip (b : BatchRow) (now : Nat) (l : ResultLine) (f : FileRow)
    (h : ∀ fid, lineTarget l = some fid → f.id ≠ fid) :
    lineF b now l f = f := by
  cases l with
  | parseFail => rfl
  | errLine cid msg =>
    cases hp : parseCustomId cid with
    | none => simp [lineF, hp]
    | some fid =>
      simp only [lineF, hp]
      rw [if_neg]
      simp only [beq_iff_eq]
      exact h fid (by simp [lineTarget, hp])
  | okLine cid body =>
    cases he : extractText body with
    | none => simp [lineF, he]
    | some txt =>
      cases hp : parseCustomId cid with
      | none => simp [lineF, he, hp]
      | some fid =>
        simp only [lineF, he, hp]
        rw [if_neg]
        simp only [beq_iff_eq]
        exact h fid (by simp [lineTarget, hp])

theorem mem_lineIds_cons (l : ResultLine) (ls : List ResultLine) (i : Nat) :
    i ∈ lineIds (l :: ls) ↔ lineTarget l = some i ∨ i ∈ lineIds ls := by
  simp only [lineIds, List.filterMap_cons]
  cases ht : lineTarget l with
  | none => simp [ht]
  | some j =>
    simp only [List.mem_cons]
    constructor
    · intro h
      rcases h with h | h
      · exact Or.inl (by rw [h])
      · exact Or.inr h
    · intro h
      rcases h with h | h
      · exact Or.inl (by injection h with h; exact h.symm)
      · exact Or.inr h

theorem lineFold_skip (b : BatchRow) (now : Nat) :
    ∀ (ls : List ResultLine) (f : FileRow), f.id ∉ lineIds ls →
      ls.foldl (fun fr l => lineF b now l fr) f = f
  | [], _, _ => rfl
  | l :: ls, f, h => by
    have h1 : lineF b now l f = f := by
      apply lineF_skip
      intro fid hfid hne
      exact h ((mem_lineIds_cons l ls f.id).mpr (Or.inl (by rw [hfid, hne])))
    rw [List.foldl_cons, h1]
    exact lineFold_skip b now ls f
      (fun hm => h ((mem_lineIds_cons l ls f.id).mpr (Or.inr hm)))

theorem pointB_skip (dl : String → List ResultLine) (now : Nat) (b : BatchRow)
    (f : FileRow)
    (h : ∀ ofid, b.output_file_id = some ofid → f.id ∉ lineIds (dl ofid)) :
    pointB dl now b f = f := by
  cases hob : b.output_file_id with
  | none => simp [pointB, hob]
  | some ofid =>
    simp only [pointB, hob]
    exact lineFold_skip b now (dl ofid) f (h ofid hob)

theorem pointR_skip (dl : String → List ResultLine) (now : Nat) :
    ∀ (bs : List BatchRow) (f : FileRow),
      (∀ b ∈ bs, ∀ ofid, b.output_file_id = some ofid →
        f.id ∉ lineIds (dl ofid)) →
      pointR dl now bs f = f
  | [], _, _ => rfl
  | b :: bs, f, h => by
    have h1 : pointB dl now b f = f :=
      pointB_skip dl now b f (h b (List.mem_cons_self b bs))
    have h2 : pointR dl now (b :: bs) f = pointR dl now bs (pointB dl now b f) := rfl
    rw [h2, h1]
    exact pointR_skip dl now bs f (fun b' hb' => h b' (List.mem_cons_of_mem b hb'))

theorem mem_members (b : BatchRow) (i : Nat) :
    i ∈ members b ↔ ∃ ids, b.file_ids = some ids ∧ i ∈ ids := by
  cases hob : b.file_ids with
  | none => simp [members, hob]
  | some ids => simp [members, hob]

theorem pointCB_skip (b : BatchRow) (f : FileRow) (h : f.id ∉ members b) :
    pointCB b f = f := by
  cases hob : b.file_ids with
  | none => simp [pointCB, hob]
  | some ids =>
    simp only [pointCB, hob]
    rw [if_neg]
    intro hmem
    exact h ((mem_members b f.id).mpr ⟨ids, hob, hmem⟩)

theorem pointC_skip : ∀ (bs : List BatchRow) (f : FileRow),
    (∀ b ∈ bs, f.id ∉ members b) → pointC bs f = f
  | [], _, _ => rfl
  | b :: bs, f, h => by
    have h1 : pointC (b :: bs) f = pointC bs (pointCB b f) := rfl
    rw [h1, pointCB_skip b f (h b (List.mem_cons_self b bs))]
    exact pointC_skip bs f (fun b' hb' => h b' (List.mem_cons_of_mem b hb'))

theorem tfRowF_skip (i : Nat) (o : TOutcome) (service modelName : String)
    (retry : String → Bool) (now : Nat) (f : FileRow) (h : f.id ≠ i) :
    tfRowF i o service modelName retry now f = f := by
  simp only [tfRowF]
  rw [if_neg (by simpa using h)]

theorem pointRun_hit (outcomes : Nat → TOutcome) (service modelName : String)
    (retry : String → Bool) (now : Nat) :
    ∀ (rows : List PendingRow) (f : FileRow),
      pointRun outcomes service modelName retry now rows f = f ∨
        f.id ∈ rows.map (fun r => r.id)
  | [], _ => Or.inl rfl
  | r :: rows, f => by
    by_cases h : f.id = r.id
    · exact Or.inr (by simp [h])
    · have h1 : pointRun outcomes service modelName retry now (r :: rows) f =
          pointRun outcomes service modelName retry now rows
            (tfRowF r.id (outcomes r.id) service modelName retry now f) := rfl
      rw [h1, tfRowF_skip r.id (outcomes r.id) service modelName retry now f h]
      rcases pointRun_hit outcomes service modelName retry now rows f with h2 | h2
      · exact Or.inl h2
      · exact Or.inr (by simp [List.mem_map] at h2 ⊢; tauto)

theorem lineF_status (b : BatchRow) (now : Nat) (l : ResultLine) (f : FileRow) :
    (lineF b now l f).transcription_status = f.transcription_status ∨
      (lineF b now l f).transcription_status = TStatus.completed ∨
      (lineF b now l f).transcription_status = TStatus.failed := by
  cases l with
  | parseFail => exact Or.inl rfl
  | errLine cid msg =>
    cases hp : parseCustomId cid with
    | none => exact Or.inl (by simp [lineF, hp])
    | some fid =>
      simp only [lineF, hp]
      split
      · exact Or.inr (Or.inr rfl)
      · exact Or.inl rfl
  | okLine cid body =>
    cases he : extractText body with
    | none => exact Or.inl (by simp [lineF, he])
    | some txt =>
      cases hp : parseCustomId cid with
      | none => exact Or.inl (by simp [lineF, he, hp])
      | some fid =>
        simp only [lineF, he, hp]
        split
        · exact Or.inr (Or.inl rfl)
        · exact Or.inl rfl

theorem lineFold_status (b : BatchRow) (now : Nat) :
    ∀ (ls : List ResultLine) (f : FileRow),
      (ls.foldl (fun fr l => lineF b now l fr) f).transcription_status =
          f.transcription_status ∨
        (ls.foldl (fun fr l => lineF b now l fr) f).transcription_status =
          TStatus.completed ∨
        (ls.foldl (fun fr l => lineF b now l fr) f).transcription_status =
          TStatus.failed
  | [], _ => Or.inl rfl
  | l :: ls, f => by
    rw [List.foldl_cons]
    rcases lineFold_status b now ls (lineF b now l f) with h | h
    · rw [h]
      exact lineF_status b now l f
    · exact Or.inr h

theorem pointB_status (dl : String → List ResultLine) (now : Nat) (b : BatchRow)
    (f : FileRow) :
    (pointB dl now b f).transcription_status = f.transcription_status ∨
      (pointB dl now b f).transcription_status = TStatus.completed ∨
      (pointB dl now b f).transcription_status = TStatus.failed := by
  cases hob : b.output_file_id with
  | none => simp [pointB, hob]
  | some ofid =>
    simp only [pointB, hob]
    exact lineFold_status b now (dl ofid) f

theorem pointR_status (dl : String → List ResultLine) (now : Nat) :
    ∀ (bs : List BatchRow) (f : FileRow),
      (pointR dl now bs f).transcription_status = f.transcription_status ∨
        (pointR dl now bs f).transcription_status = TStatus.completed ∨
        (pointR dl now bs f).transcription_status = TStatus.failed
  | [], _ => Or.inl rfl
  | b :: bs, f => by
    have h1 : pointR dl now (b :: bs) f = pointR dl now bs (pointB dl now b f) := rfl
    rw [h1]
    rcases pointR_status dl now bs (pointB dl now b f) with h | h
    · rw [h]
      exact pointB_status dl now b f
    · exact Or.inr h

theorem pointCB_status (b : BatchRow) (f : FileRow) :
    (pointCB b f).transcription_status = f.transcription_status ∨
      (pointCB b f).transcription_status = TStatus.pending := by
  cases hob : b.file_ids with
  | none => simp [pointCB, hob]
  | some ids =>
    simp only [pointCB, hob]
    split
    · exact Or.inr rfl
    · exact Or.inl rfl

theorem pointC_status : ∀ (bs : List BatchRow) (f : FileRow),
    (pointC bs f).transcription_status = f.transcription_status ∨
      (pointC bs f).transcription_status = TStatus.pending
  | [], _ => Or.inl rfl
  | b :: bs, f => by
    have h1 : pointC (b :: bs) f = pointC bs (pointCB b f) := rfl
    rw [h1]
    rcases pointC_status bs (pointCB b f) with h | h
    · rw [h]
      exact pointCB_status b f
    · exact Or.inr h

theorem mem_joinFiles (s : DBState) (r : PendingRow) (hr : r ∈ joinFiles s) :
    ∃ f ∈ s.document_files, f.id = r.id ∧
      f.transcription_status = r.transcription_status := by
  have hgen : ∀ l : List FileRow,
      r ∈ l.foldr
        (fun f acc =>
          ((s.documents.filter (fun d => d.id == f.document_id)).map
            (fun d =>
              { id := f.id, file_path := f.file_path,
                part_number := f.part_number,
                document_key := d.document_key, docType := d.docType,
                date := d.date,
                transcription_status := f.transcription_status })) ++ acc)
        [] →
      ∃ f ∈ l, f.id = r.id ∧ f.transcription_status = r.transcription_status := by
    intro l
    induction l with
    | nil => intro h; simp at h
    | cons f fs ih =>
      intro h
      rw [List.foldr_cons] at h
      rcases List.mem_append.mp h with h | h
      · rcases List.mem_map.mp h with ⟨d, _, heq⟩
        exact ⟨f, List.mem_cons_self f fs, by rw [← heq], by rw [← heq]⟩
      · rcases ih h with ⟨f0, hf0, h1, h2⟩
        exact ⟨f0, List.mem_cons_of_mem f hf0, h1, h2⟩
  exact hgen s.document_files hr

theorem mem_getPendingFiles (s : DBState) (limit : Nat) (tf : Option String)
    (r : PendingRow) (hr : r ∈ getPendingFiles s limit tf) :
    r.transcription_status = TStatus.pending ∧
      ∃ f ∈ s.document_files, f.id = r.id ∧
        f.transcription_status = TStatus.pending := by
  have h1 : r ∈ stableSortBy (fun a b => dateLe a.date b.date)
      ((joinFiles s).filter
        (fun r => r.transcription_status == TStatus.pending &&
          (match tf with
           | some t => r.docType == t
           | none => true))) := List.take_subset _ _ hr
  have h2 := (mem_stableSortBy _ r _).mp h1
  have h3 := List.mem_filter.mp h2
  have hp : r.transcription_status = TStatus.pending := by
    have := (Bool.and_eq_true _ _).mp h3.2
    simpa using this.1
  rcases mem_joinFiles s r h3.1 with ⟨f, hf, hid, hst⟩
  exact ⟨hp, f, hf, hid, by rw [hst, hp]⟩

theorem mem_selectSubmit (s : DBState) (sel : SubmitSel) (r : PendingRow)
    (hr : r ∈ selectSubmit s sel) :
    r.transcription_status = TStatus.pending ∧
      ∃ f ∈ s.document_files, f.id = r.id ∧
        f.transcription_status = TStatus.pending := by
  cases sel with
  | byLimit limit tf => exact mem_getPendingFiles s limit tf r hr
  | byIds ids =>
    have h3 := List.mem_filter.mp hr
    have hp : r.transcription_status = TStatus.pending := by
      have := (Bool.and_eq_true _ _).mp h3.2
      simpa using this.2
    rcases mem_joinFiles s r h3.1 with ⟨f, hf, hid, hst⟩
    exact ⟨hp, f, hf, hid, by rw [hst, hp]⟩

theorem same_id_unique (s : DBState)
    (h3 : (s.document_files.map (fun f => f.id)).Nodup)
    (f f0 : FileRow) (hf : f ∈ s.document_files) (hf0 : f0 ∈ s.document_files)
    (hid : f.id = f0.id) : f = f0 :=
  List.inj_on_of_nodup_map h3 hf hf0 hid

theorem statusStepOk_refl (x : TStatus) : statusStepOk x x := Or.inl rfl

theorem statusStepOk_pending (x : TStatus) : statusStepOk TStatus.pending x := by
  cases x with
  | pending => exact Or.inl rfl
  | submitted => exact Or.inr rfl
  | completed => exact Or.inr rfl
  | failed => exact Or.inr rfl

theorem forall2_map_self {α : Type} (R : α → α → Prop) (F : α → α) :
    ∀ l : List α, (∀ a ∈ l, R a (F a)) → List.Forall₂ R l (l.map F)
  | [], _ => List.Forall₂.nil
  | a :: l, h =>
    List.Forall₂.cons (h a (List.mem_cons_self a l))
      (forall2_map_self R F l (fun a' ha' => h a' (List.mem_cons_of_mem a ha')))

theorem forall2_refl_self {α : Type} (R : α → α → Prop) :
    ∀ l : List α, (∀ a ∈ l, R a a) → List.Forall₂ R l l
  | [], _ => List.Forall₂.nil
  | a :: l, h =>
    List.Forall₂.cons (h a (List.mem_cons_self a l))
      (forall2_refl_self R l (fun a' ha' => h a' (List.mem_cons_of_mem a ha')))

theorem runner_safety (s : DBState) (limit : Nat) (tf : Option String)
    (outcomes : Nat → TOutcome) (service modelName : String)
    (retry : String → Bool) (now : Nat)
    (hNodup : (s.document_files.map (fun f => f.id)).Nodup) :
    ∀ f ∈ s.document_files,
      statusStepOk f.transcription_status
        (pointRun outcomes service modelName retry now
          (getPendingFiles s limit tf) f).transcription_status := by
  intro f hf
  rcases pointRun_hit outcomes service modelName retry now
    (getPendingFiles s limit tf) f with h | h
  · rw [h]
    exact statusStepOk_refl _
  · rcases List.mem_map.mp h with ⟨r, hr, hrid⟩
    rcases mem_getPendingFiles s limit tf r hr with ⟨_, f0, hf0, hf0id, hf0st⟩
    have hff0 : f = f0 :=
      same_id_unique s hNodup f f0 hf hf0 (by rw [← hrid, hf0id])
    rw [hff0, hf0st]
    exact statusStepOk_pending _

theorem reconcile_safety (dl : String → List ResultLine) (now : Nat) (s : DBState)
    (hI1 : ∀ b ∈ s.transcription_batches, b.processed_at = none →
      ∀ f ∈ s.document_files, f.id ∈ members b →
        f.transcription_status = TStatus.submitted)
    (hwb : ∀ b ∈ rrSelect s, ∀ ofid, b.output_file_id = some ofid →
      (∀ i ∈ lineIds (dl ofid), i ∈ members b) ∧ (lineIds (dl ofid)).Nodup) :
    ∀ f ∈ s.document_files,
      statusStepOk f.transcription_status
        (pointR dl now (rrSelect s) f).transcription_status := by
  intro f hf
  by_cases hhit : ∀ b ∈ rrSelect s, ∀ ofid, b.output_file_id = some ofid →
    f.id ∉ lineIds (dl ofid)
  · rw [pointR_skip dl now (rrSelect s) f hhit]
    exact statusStepOk_refl _
  · push_neg at hhit
    rcases hhit with ⟨b, hb, ofid, hob, hmem⟩
    have h1 := (hwb b hb ofid hob).1 f.id hmem
    have hb2 : b ∈ List.filter
        (fun b => b.status == "completed" && b.processed_at.isNone)
        s.transcription_batches := hb
    have hmf := List.mem_filter.mp hb2
    have hnone : b.processed_at = none := by
      have := (Bool.and_eq_true _ _).mp hmf.2
      simpa [Option.isNone_iff_eq_none] using this.2
    have hsub : f.transcription_status = TStatus.submitted :=
      hI1 b hmf.1 hnone f hf h1
    rcases pointR_status dl now (rrSelect s) f with h | h | h
    · rw [h]
      exact statusStepOk_refl _
    · rw [h, hsub]
      exact Or.inr rfl
    · rw [h, hsub]
      exact Or.inr rfl

theorem sweep_safety (s : DBState)
    (hI1 : ∀ b ∈ s.transcription_batches, b.processed_at = none →
      ∀ f ∈ s.document_files, f.id ∈ members b →
        f.transcription_status = TStatus.submitted) :
    ∀ f ∈ s.document_files,
      statusStepOk f.transcription_status
        (pointC (csSelect s) f).transcription_status := by
  intro f hf
  by_cases hhit : ∀ b ∈ csSelect s, f.id ∉ members b
  · rw [pointC_skip (csSelect s) f hhit]
    exact statusStepOk_refl _
  · push_neg at hhit
    rcases hhit with ⟨b, hb, hmem⟩
    have hb2 : b ∈ List.filter
        (fun b => b.status == "completed" && decide (0 < b.failed_count) &&
          b.processed_at.isNone)
        s.transcription_batches := hb
    have hmf := List.mem_filter.mp hb2
    have hnone : b.processed_at = none := by
      have := (Bool.and_eq_true _ _).mp hmf.2
      simpa [Option.isNone_iff_eq_none] using this.2
    have hsub : f.transcription_status = TStatus.submitted :=
      hI1 b hmf.1 hnone f hf hmem
    rcases pointC_status (csSelect s) f with h | h
    · rw [h]
      exact statusStepOk_refl _
    · rw [h, hsub]
      exact Or.inr rfl

theorem submit_safety (s : DBState) (sel : SubmitSel)
    (hNodup : (s.document_files.map (fun f => f.id)).Nodup) :
    ∀ f ∈ s.document_files,
      statusStepOk f.transcription_status
        (if f.id ∈ (selectSubmit s sel).map (fun r => r.id)
          then TStatus.submitted else f.transcription_status) := by
  intro f hf
  by_cases h : f.id ∈ (selectSubmit s sel).map (fun r => r.id)
  · rw [if_pos h]
    rcases List.mem_map.mp h with ⟨r, hr, hrid⟩
    rcases mem_selectSubmit s sel r hr with ⟨_, f0, hf0, hf0id, hf0st⟩
    have hff0 : f = f0 :=
      same_id_unique s hNodup f f0 hf hf0 (by rw [← hrid, hf0id])
    rw [hff0, hf0st]
    exact Or.inr rfl
  · rw [if_neg h]
    exact statusStepOk_refl _

theorem rMarkStep_bid (now : Nat) (b r : BatchRow) :
    (rMarkStep now b r).batch_id = r.batch_id := by
  cases hob : b.output_file_id with
  | none => simp [rMarkStep, hob]
  | some ofid =>
    simp only [rMarkStep, hob]
    split <;> rfl

theorem rMarkStep_fids (now : Nat) (b r : BatchRow) :
    (rMarkStep now b r).file_ids = r.file_ids := by
  cases hob : b.output_file_id with
  | none => simp [rMarkStep, hob]
  | some ofid =>
    simp only [rMarkStep, hob]
    split <;> rfl

theorem rMarkStep_cases (now : Nat) (b r : BatchRow) :
    rMarkStep now b r = r ∨ (rMarkStep now b r).processed_at = some now := by
  cases hob : b.output_file_id with
  | none => exact Or.inl (by simp [rMarkStep, hob])
  | some ofid =>
    simp only [rMarkStep, hob]
    split
    · exact Or.inr rfl
    · exact Or.inl rfl

theorem rMark_bid (now : Nat) : ∀ (bs : List BatchRow) (r : BatchRow),
    (rMark now bs r).batch_id = r.batch_id
  | [], _ => rfl
  | b :: bs, r => by
    have h1 : rMark now (b :: bs) r = rMark now bs (rMarkStep now b r) := rfl
    rw [h1, rMark_bid now bs _, rMarkStep_bid]

theorem rMark_fids (now : Nat) : ∀ (bs : List BatchRow) (r : BatchRow),
    (rMark now bs r).file_ids = r.file_ids
  | [], _ => rfl
  | b :: bs, r => by
    have h1 : rMark now (b :: bs) r = rMark now bs (rMarkStep now b r) := rfl
    rw [h1, rMark_fids now bs _, rMarkStep_fids]

theorem rMark_isSome (now : Nat) : ∀ (bs : List BatchRow) (r : BatchRow),
    r.processed_at.isSome = true → (rMark now bs r).processed_at.isSome = true
  | [], _, h => h
  | b :: bs, r, h => by
    have h1 : rMark now (b :: bs) r = rMark now bs (rMarkStep now b r) := rfl
    rw [h1]
    apply rMark_isSome now bs
    rcases rMarkStep_cases now b r with h2 | h2
    · rw [h2]; exact h
    · rw [h2]; rfl

theorem rMark_unmarked (now : Nat) : ∀ (bs : List BatchRow) (r : BatchRow),
    (rMark now bs r).processed_at = none → rMark now bs r = r
  | [], _, _ => rfl
  | b :: bs, r, h => by
    have h1 : rMark now (b :: bs) r = rMark now bs (rMarkStep now b r) := rfl
    rw [h1] at h ⊢
    rcases rMarkStep_cases now b r with h2 | h2
    · rw [h2] at h ⊢
      exact rMark_unmarked now bs r h
    · have := rMark_isSome now bs (rMarkStep now b r) (by rw [h2]; rfl)
      rw [h] at this
      simp at this

theorem rMark_marks_self (now : Nat) :
    ∀ (bs : List BatchRow) (r : BatchRow) (b : BatchRow), b ∈ bs →
      ∀ ofid, b.output_file_id = some ofid → r.batch_id = b.batch_id →
      (rMark now bs r).processed_at.isSome = true
  | [], _, b, hb, _, _, _ => absurd hb (List.not_mem_nil b)
  | b0 :: bs, r, b, hb, ofid, hob, hbid => by
    have h1 : rMark now (b0 :: bs) r = rMark now bs (rMarkStep now b0 r) := rfl
    rw [h1]
    rcases List.mem_cons.mp hb with heq | hmem
    · subst heq
      apply rMark_isSome
      simp only [rMarkStep, hob]
      rw [if_pos (by simpa using hbid)]
      rfl
    · exact rMark_marks_self now bs (rMarkStep now b0 r) b hmem ofid hob
        (by rw [rMarkStep_bid, hbid])

theorem cMarkStep_bid (now : Nat) (b r : BatchRow) :
    (cMarkStep now b r).batch_id = r.batch_id := by
  cases hob : b.file_ids with
  | none => simp [cMarkStep, hob]
  | some ids =>
    simp only [cMarkStep, hob]
    split <;> rfl

theorem cMarkStep_fids (now : Nat) (b r : BatchRow) :
    (cMarkStep now b r).file_ids = r.file_ids := by
  cases hob : b.file_ids with
  | none => simp [cMarkStep, hob]
  | some ids =>
    simp only [cMarkStep, hob]
    split <;> rfl

theorem cMarkStep_cases (now : Nat) (b r : BatchRow) :
    cMarkStep now b r = r ∨ (cMarkStep now b r).processed_at = some now := by
  cases hob : b.file_ids with
  | none => exact Or.inl (by simp [cMarkStep, hob])
  | some ids =>
    simp only [cMarkStep, hob]
    split
    · exact Or.inr rfl
    · exact Or.inl rfl

theorem cMark_fids (now : Nat) : ∀ (bs : List BatchRow) (r : BatchRow),
    (cMark now bs r).file_ids = r.file_ids
  | [], _ => rfl
  | b :: bs, r => by
    have h1 : cMark now (b :: bs) r = cMark now bs (cMarkStep now b r) := rfl
    rw [h1, cMark_fids now bs _, cMarkStep_fids]

theorem cMark_isSome (now : Nat) : ∀ (bs : List BatchRow) (r : BatchRow),
    r.processed_at.isSome = true → (cMark now bs r).processed_at.isSome = true
  | [], _, h => h
  | b :: bs, r, h => by
    have h1 : cMark now (b :: bs) r = cMark now bs (cMarkStep now b r) := rfl
    rw [h1]
    apply cMark_isSome now bs
    rcases cMarkStep_cases now b r with h2 | h2
    · rw [h2]; exact h
    · rw [h2]; rfl

theorem cMark_unmarked (now : Nat) : ∀ (bs : List BatchRow) (r : BatchRow),
    (cMark now bs r).processed_at = none → cMark now bs r = r
  | [], _, _ => rfl
  | b :: bs, r, h => by
    have h1 : cMark now (b :: bs) r = cMark now bs (cMarkStep now b r) := rfl
    rw [h1] at h ⊢
    rcases cMarkStep_cases now b r with h2 | h2
    · rw [h2] at h ⊢
      exact cMark_unmarked now bs r h
    · have := cMark_isSome now bs (cMarkStep now b r) (by rw [h2]; rfl)
      rw [h] at this
      simp at this

theorem cMark_marks_self (now : Nat) :
    ∀ (bs : List BatchRow) (r : BatchRow) (b : BatchRow), b ∈ bs →
      ∀ ids, b.file_ids = some ids → r.batch_id = b.batch_id →
      (cMark now bs r).processed_at.isSome = true
  | [], _, b, hb, _, _, _ => absurd hb (List.not_mem_nil b)
  | b0 :: bs, r, b, hb, ids, hob, hbid => by
    have h1 : cMark now (b0 :: bs) r = cMark now bs (cMarkStep now b0 r) := rfl
    rw [h1]
    rcases List.mem_cons.mp hb with heq | hmem
    · subst heq
      apply cMark_isSome
      simp only [cMarkStep, hob]
      rw [if_pos (by simpa using hbid)]
      rfl
    · exact cMark_marks_self now bs (cMarkStep now b0 r) b hmem ids hob
        (by rw [cMarkStep_bid, hbid])

theorem trackStepRow_marker (api : String → ApiBatch) (b r : BatchRow) :
    (trackStepRow api b r).processed_at = r.processed_at := by
  simp only [trackStepRow]
  split
  · rfl
  · split <;> rfl

theorem trackStepRow_fids (api : String → ApiBatch) (b r : BatchRow) :
    (trackStepRow api b r).file_ids = r.file_ids := by
  simp only [trackStepRow]
  split
  · rfl
  · split <;> rfl

theorem trackRows_marker (api : String → ApiBatch) :
    ∀ (bs : List BatchRow) (r : BatchRow),
      (trackRows api bs r).processed_at = r.processed_at
  | [], _ => rfl
  | b :: bs, r => by
    have h1 : trackRows api (b :: bs) r = trackRows api bs (trackStepRow api b r) := rfl
    rw [h1, trackRows_marker api bs _, trackStepRow_marker]

theorem trackRows_fids (api : String → ApiBatch) :
    ∀ (bs : List BatchRow) (r : BatchRow),
      (trackRows api bs r).file_ids = r.file_ids
  | [], _ => rfl
  | b :: bs, r => by
    have h1 : trackRows api (b :: bs) r = trackRows api bs (trackStepRow api b r) := rfl
    rw [h1, trackRows_fids api bs _, trackStepRow_fids]

theorem pairwise_mem_unique :
    ∀ {l : List BatchRow},
      l.Pairwise (fun b b' => ∀ i ∈ members b, i ∉ members b') →
      ∀ {b b' : BatchRow}, b ∈ l → b' ∈ l → ∀ {i : Nat},
        i ∈ members b → i ∈ members b' → b = b' := by
  intro l hp
  induction l with
  | nil => intro b b' hb; cases hb
  | cons x xs ih =>
    have hp' := List.pairwise_cons.mp hp
    intro b b' hb hb' i hib hib'
    rcases List.mem_cons.mp hb with hbx | hbxs
    · rcases List.mem_cons.mp hb' with hbx' | hbxs'
      · rw [hbx, hbx']
      · rw [hbx] at hib
        exact absurd hib' (hp'.1 b' hbxs' i hib)
    · rcases List.mem_cons.mp hb' with hbx' | hbxs'
      · rw [hbx'] at hib'
        exact absurd hib (hp'.1 b hbxs i hib')
      · exact ih hp'.2 hbxs hbxs' hib hib'

theorem pointR_hit (dl : String → List ResultLine) (now : Nat)
    (bs : List BatchRow) (f : FileRow) :
    pointR dl now bs f = f ∨
      ∃ b ∈ bs, ∃ ofid, b.output_file_id = some ofid ∧
        f.id ∈ lineIds (dl ofid) := by
  by_cases h : ∀ b ∈ bs, ∀ ofid, b.output_file_id = some ofid →
    f.id ∉ lineIds (dl ofid)
  · exact Or.inl (pointR_skip dl now bs f h)
  · push_neg at h
    exact Or.inr h

theorem pointC_hit (bs : List BatchRow) (f : FileRow) :
    pointC bs f = f ∨ ∃ b ∈ bs, f.id ∈ members b := by
  by_cases h : ∀ b ∈ bs, f.id ∉ members b
  · exact Or.inl (pointC_skip bs f h)
  · push_neg at h
    exact Or.inr h

theorem I2_map (L : List BatchRow) (T : BatchRow → BatchRow)
    (hids : ∀ r, (T r).file_ids = r.file_ids)
    (hmono : ∀ r, (T r).processed_at = none → r.processed_at = none)
    (hI2 : (L.filter (fun b => b.processed_at.isNone)).Pairwise
      (fun b b' => ∀ i ∈ members b, i ∉ members b')) :
    ((L.map T).filter (fun b => b.processed_at.isNone)).Pairwise
      (fun b b' => ∀ i ∈ members b, i ∉ members b') := by
  rw [List.filter_map, List.pairwise_map]
  have hsub : List.Sublist (L.filter ((fun b => b.processed_at.isNone) ∘ T))
      (L.filter (fun b => b.processed_at.isNone)) := by
    apply List.monotone_filter_right
    intro a ha
    have h1 : (T a).processed_at = none := by
      simpa [Function.comp, Option.isNone_iff_eq_none] using ha
    simpa [Option.isNone_iff_eq_none] using hmono a h1
  have hpw := List.Pairwise.sublist hsub hI2
  refine hpw.imp ?_
  intro a b hab i hi
  have hma : members (T a) = members a := by unfold members; rw [hids]
  have hmb : members (T b) = members b := by unfold members; rw [hids]
  rw [hma] at hi
  rw [hmb]
  exact hab i hi

theorem map_map_ids {l : List FileRow} (F : FileRow → FileRow)
    (hF : ∀ f, (F f).id = f.id) :
    (l.map F).map (fun f => f.id) = l.map (fun f => f.id) := by
  rw [List.map_map]
  exact mapExt _ _ _ (fun f => hF f)

theorem Inv_init (s : DBState) (h1 : s.transcription_batches = [])
    (h2 : (s.document_files.map (fun f => f.id)).Nodup) : Inv s := by
  refine ⟨?_, ?_, h2⟩
  · intro b hb
    rw [h1] at hb
    cases hb
  · rw [h1]
    exact List.Pairwise.nil

theorem Inv_runner (s : DBState) (limit : Nat) (tf : Option String)
    (outcomes : Nat → TOutcome) (service modelName : String)
    (retry : String → Bool) (now : Nat) (hI : Inv s) :
    Inv (runnerPass limit tf outcomes service modelName retry now s) := by
  obtain ⟨hI1, hI2, hI3⟩ := hI
  refine ⟨?_, ?_, ?_⟩
  · intro b hb hnone f' hf' hmem
    rw [runnerPass_batches] at hb
    rw [runnerPass_files] at hf'
    rcases List.mem_map.mp hf' with ⟨f0, hf0, heq⟩
    have hid : f'.id = f0.id := by
      rw [← heq]
      exact pointRun_id outcomes service modelName retry now _ f0
    have hmem0 : f0.id ∈ members b := by
      rw [← hid]
      exact hmem
    have hsub : f0.transcription_status = TStatus.submitted :=
      hI1 b hb hnone f0 hf0 hmem0
    have hnohit : pointRun outcomes service modelName retry now
        (getPendingFiles s limit tf) f0 = f0 := by
      rcases pointRun_hit outcomes service modelName retry now
        (getPendingFiles s limit tf) f0 with h | h
      · exact h
      · exfalso
        rcases List.mem_map.mp h with ⟨r, hr, hrid⟩
        rcases mem_getPendingFiles s limit tf r hr with ⟨_, f1, hf1, hf1id, hf1st⟩
        have hfh : f0 = f1 :=
          same_id_unique s hI3 f0 f1 hf0 hf1 (by rw [← hrid, hf1id])
        rw [hfh, hf1st] at hsub
        exact TStatus.noConfusion hsub
    rw [← heq, hnohit]
    exact hsub
  · rw [runnerPass_batches]
    exact hI2
  · rw [runnerPass_files,
      map_map_ids _ (fun f => pointRun_id outcomes service modelName retry now _ f)]
    exact hI3

theorem Inv_submit (s : DBState) (sel : SubmitSel) (up : Option String)
    (cr : Option (String × String)) (now : Nat) (hI : Inv s) :
    Inv ((createTranscriptionBatch s (selectSubmit s sel) up cr now).2) := by
  obtain ⟨hI1, hI2, hI3⟩ := hI
  cases up with
  | none => exact ⟨hI1, hI2, hI3⟩
  | some iid =>
    cases cr with
    | none => exact ⟨hI1, hI2, hI3⟩
    | some pr =>
      obtain ⟨bid, bstatus⟩ := pr
      have hbat : ((createTranscriptionBatch s (selectSubmit s sel) (some iid)
          (some (bid, bstatus)) now).2).transcription_batches =
          s.transcription_batches ++
            [newBatchRow (selectSubmit s sel) iid bid bstatus] := rfl
      have hfil : ((createTranscriptionBatch s (selectSubmit s sel) (some iid)
          (some (bid, bstatus)) now).2).document_files =
          s.document_files.map
            (fun f => if f.id ∈ (selectSubmit s sel).map (fun f => f.id)
              then { f with transcription_status := TStatus.submitted }
              else f) := rfl
      have hcross : ∀ a ∈ s.transcription_batches, a.processed_at = none →
          ∀ i ∈ members a,
            i ∉ members (newBatchRow (selectSubmit s sel) iid bid bstatus) := by
        intro a ha hanone i hia hinew
        have hinew' : i ∈ (selectSubmit s sel).map (fun f => f.id) := hinew
        rcases List.mem_map.mp hinew' with ⟨r, hr, hrid⟩
        rcases mem_selectSubmit s sel r hr with ⟨_, f1, hf1, hf1id, hf1st⟩
        have : f1.transcription_status = TStatus.submitted :=
          hI1 a ha hanone f1 hf1 (by rw [hf1id, hrid]; exact hia)
        rw [hf1st] at this
        exact TStatus.noConfusion this
      refine ⟨?_, ?_, ?_⟩
      · intro b hb hnone f' hf' hmem
        rw [hbat] at hb
        rw [hfil] at hf'
        rcases List.mem_map.mp hf' with ⟨f0, hf0, heq⟩
        by_cases hin : f0.id ∈ (selectSubmit s sel).map (fun f => f.id)
        · rw [← heq, if_pos hin]
        · rw [if_neg hin] at heq
          subst heq
          rcases List.mem_append.mp hb with hb | hb
          · exact hI1 b hb hnone f0 hf0 hmem
          · exfalso
            have hbnew : b = newBatchRow (selectSubmit s sel) iid bid bstatus := by
              cases List.mem_cons.mp hb with
              | inl h => exact h
              | inr h => cases h
            rw [hbnew] at hmem
            exact hin hmem
      · rw [hbat, List.filter_append]
        have hnewfil : List.filter (fun b => b.processed_at.isNone)
            [newBatchRow (selectSubmit s sel) iid bid bstatus] =
            [newBatchRow (selectSubmit s sel) iid bid bstatus] := rfl
        rw [hnewfil]
        rw [List.pairwise_append]
        refine ⟨hI2, List.pairwise_singleton _ _, ?_⟩
        intro a ha y hy i hia
        have hy' : y = newBatchRow (selectSubmit s sel) iid bid bstatus := by
          cases List.mem_cons.mp hy with
          | inl h => exact h
          | inr h => cases h
        have hmf := List.mem_filter.mp ha
        have hanone : a.processed_at = none := by
          simpa [Option.isNone_iff_eq_none] using hmf.2
        rw [hy']
        exact hcross a hmf.1 hanone i hia
      · rw [hfil]
        rw [map_map_ids _ (fun f => by
          by_cases h : f.id ∈ (selectSubmit s sel).map (fun f => f.id)
          · rw [if_pos h]
          · rw [if_neg h])]
        exact hI3

theorem Inv_track (api : String → ApiBatch) (s : DBState) (hI : Inv s) :
    Inv (checkTranscriptionBatches api s) := by
  obtain ⟨hI1, hI2, hI3⟩ := hI
  refine ⟨?_, ?_, ?_⟩
  · intro b hb hnone f hf hmem
    rw [checkTranscriptionBatches_batches] at hb
    rw [checkTranscriptionBatches_files] at hf
    rcases List.mem_map.mp hb with ⟨b0, hb0, heq⟩
    have hmk : b0.processed_at = none := by
      rw [← trackRows_marker api
        (s.transcription_batches.filter (fun b => b.processed_at.isNone)) b0,
        heq, hnone]
    have hmem0 : f.id ∈ members b0 := by
      have hmm : members b = members b0 := by
        unfold members
        rw [← heq, trackRows_fids]
      rw [← hmm]
      exact hmem
    exact hI1 b0 hb0 hmk f hf hmem0
  · rw [checkTranscriptionBatches_batches]
    exact I2_map _ _ (fun r => trackRows_fids api _ r)
      (fun r h => by rw [← trackRows_marker api _ r]; exact h) hI2
  · rw [checkTranscriptionBatches_files]
    exact hI3

theorem Inv_reconcile (dl : String → List ResultLine) (now : Nat) (s : DBState)
    (hI : Inv s)
    (hwb : ∀ b ∈ rrSelect s, ∀ ofid, b.output_file_id = some ofid →
      (∀ i ∈ lineIds (dl ofid), i ∈ members b) ∧ (lineIds (dl ofid)).Nodup) :
    Inv (processTranscriptionResults dl now s) := by
  obtain ⟨hI1, hI2, hI3⟩ := hI
  refine ⟨?_, ?_, ?_⟩
  · intro b' hb' hnone f' hf' hmem
    rw [processTranscriptionResults_batches] at hb'
    rw [processTranscriptionResults_files] at hf'
    rcases List.mem_map.mp hb' with ⟨b0, hb0, heqb⟩
    have hb0unch : rMark now (rrSelect s) b0 = b0 :=
      rMark_unmarked now _ b0 (by rw [heqb]; exact hnone)
    have hb'b0 : b' = b0 := by rw [← heqb, hb0unch]
    rw [hb'b0] at hnone hmem
    rcases List.mem_map.mp hf' with ⟨f0, hf0, heqf⟩
    have hidf : f'.id = f0.id := by
      rw [← heqf]
      exact pointR_id dl now _ f0
    have hmem0 : f0.id ∈ members b0 := by
      rw [← hidf]
      exact hmem
    have hsub : f0.transcription_status = TStatus.submitted :=
      hI1 b0 hb0 hnone f0 hf0 hmem0
    rcases pointR_hit dl now (rrSelect s) f0 with hskip | hhit
    · rw [← heqf, hskip]
      exact hsub
    · exfalso
      rcases hhit with ⟨b, hbsel, ofid, hob, hfin⟩
      have hmemb : f0.id ∈ members b := (hwb b hbsel ofid hob).1 f0.id hfin
      have hbF : b ∈ s.transcription_batches.filter
          (fun x => x.processed_at.isNone) := by
        have hb2 : b ∈ List.filter
            (fun x => x.status == "completed" && x.processed_at.isNone)
            s.transcription_batches := hbsel
        have hmf := List.mem_filter.mp hb2
        refine List.mem_filter.mpr ⟨hmf.1, ?_⟩
        exact ((Bool.and_eq_true _ _).mp hmf.2).2
      have hb0F : b0 ∈ s.transcription_batches.filter
          (fun x => x.processed_at.isNone) :=
        List.mem_filter.mpr ⟨hb0, by simp [Option.isNone_iff_eq_none, hnone]⟩
      have hbb0 : b = b0 := pairwise_mem_unique hI2 hbF hb0F hmemb hmem0
      have hmarked : (rMark now (rrSelect s) b0).processed_at.isSome = true :=
        rMark_marks_self now (rrSelect s) b0 b hbsel ofid hob (by rw [hbb0])
      rw [hb0unch, hnone] at hmarked
      exact Bool.noConfusion hmarked
  · rw [processTranscriptionResults_batches]
    refine I2_map _ _ (fun r => rMark_fids now _ r) ?_ hI2
    intro r h
    cases hr : r.processed_at with
    | none => rfl
    | some t =>
      have := rMark_isSome now (rrSelect s) r (by rw [hr]; rfl)
      rw [h] at this
      exact Bool.noConfusion this
  · rw [processTranscriptionResults_files,
      map_map_ids _ (fun f => pointR_id dl now _ f)]
    exact hI3

theorem Inv_sweep (now : Nat) (s : DBState) (hI : Inv s) :
    Inv (cleanupFailedBatches now s) := by
  obtain ⟨hI1, hI2, hI3⟩ := hI
  refine ⟨?_, ?_, ?_⟩
  · intro b' hb' hnone f' hf' hmem
    rw [cleanupFailedBatches_batches] at hb'
    rw [cleanupFailedBatches_files] at hf'
    rcases List.mem_map.mp hb' with ⟨b0, hb0, heqb⟩
    have hb0unch : cMark now (csSelect s) b0 = b0 :=
      cMark_unmarked now _ b0 (by rw [heqb]; exact hnone)
    have hb'b0 : b' = b0 := by rw [← heqb, hb0unch]
    rw [hb'b0] at hnone hmem
    rcases List.mem_map.mp hf' with ⟨f0, hf0, heqf⟩
    have hidf : f'.id = f0.id := by
      rw [← heqf]
      exact pointC_id _ f0
    have hmem0 : f0.id ∈ members b0 := by
      rw [← hidf]
      exact hmem
    have hsub : f0.transcription_status = TStatus.submitted :=
      hI1 b0 hb0 hnone f0 hf0 hmem0
    rcases pointC_hit (csSelect s) f0 with hskip | hhit
    · rw [← heqf, hskip]
      exact hsub
    · exfalso
      rcases hhit with ⟨b, hbsel, hfin⟩
      have hbF : b ∈ s.transcription_batches.filter
          (fun x => x.processed_at.isNone) := by
        have hb2 : b ∈ List.filter
            (fun x => x.status == "completed" && decide (0 < x.failed_count) &&
              x.processed_at.isNone)
            s.transcription_batches := hbsel
        have hmf := List.mem_filter.mp hb2
        refine List.mem_filter.mpr ⟨hmf.1, ?_⟩
        exact ((Bool.and_eq_true _ _).mp hmf.2).2
      have hb0F : b0 ∈ s.transcription_batches.filter
          (fun x => x.processed_at.isNone) :=
        List.mem_filter.mpr ⟨hb0, by simp [Option.isNone_iff_eq_none, hnone]⟩
      have hbb0 : b = b0 := pairwise_mem_unique hI2 hbF hb0F hfin hmem0
      rcases (mem_members b f0.id).mp hfin with ⟨ids, hids, _⟩
      have hmarked : (cMark now (csSelect s) b0).processed_at.isSome = true :=
        cMark_marks_self now (csSelect s) b0 b hbsel ids hids (by rw [hbb0])
      rw [hb0unch, hnone] at hmarked
      exact Bool.noConfusion hmarked
  · rw [cleanupFailedBatches_batches]
    refine I2_map _ _ (fun r => cMark_fids now _ r) ?_ hI2
    intro r h
    cases hr : r.processed_at with
    | none => rfl
    | some t =>
      have := cMark_isSome now (csSelect s) r (by rw [hr]; rfl)
      rw [h] at this
      exact Bool.noConfusion this
  · rw [cleanupFailedBatches_files, map_map_ids _ (fun f => pointC_id _ f)]
    exact hI3

theorem Inv_preserved (op : PipeOp) (s : DBState) (hI : Inv s)
    (hwb : WellBehaved op s) : Inv (applyOp op s) := by
  cases op with
  | runner limit tf outcomes service modelName retry now =>
    exact Inv_runner s limit tf outcomes service modelName retry now hI
  | submit sel up cr now => exact Inv_submit s sel up cr now hI
  | track api => exact Inv_track api s hI
  | reconcile dl now => exact Inv_reconcile dl now s hI hwb
  | sweep now => exact Inv_sweep now s hI

theorem Inv_of_reachable (s : DBState) (h : Reachable s) : Inv s := by
  induction h with
  | init s h1 h2 => exact Inv_init s h1 h2
  | step s op _ hwb ih => exact Inv_preserved op s ih hwb

/-- C5: every status write performed by a pipeline operation — synchronous
runner write-back, bulk submission, status tracking, reconciliation or
recovery sweep — moves each unit only along the allowed transitions
pending to submitted/completed/failed and submitted to
completed/failed/pending (or leaves its status unchanged); in particular no
operation ever moves a completed unit back to pending.  Stated for every
state reachable by well-behaved pipeline operations from a fresh store. -/
theorem pipeline_allowedTransitions (s : DBState) (op : PipeOp)
    (hreach : Reachable s) (hwb : WellBehaved op s) :
    List.Forall₂
      (fun f f' => f.id = f'.id ∧
        statusStepOk f.transcription_status f'.transcription_status)
      s.document_files (applyOp op s).document_files := by
  obtain ⟨hI1, hI2, hI3⟩ := Inv_of_reachable s hreach
  cases op with
  | runner limit tf outcomes service modelName retry now =>
    rw [show applyOp (PipeOp.runner limit tf outcomes service modelName retry now) s =
      runnerPass limit tf outcomes service modelName retry now s from rfl,
      runnerPass_files]
    apply forall2_map_self
    intro f hf
    exact ⟨(pointRun_id outcomes service modelName retry now _ f).symm,
      runner_safety s limit tf outcomes service modelName retry now hI3 f hf⟩
  | submit sel up cr now =>
    cases up with
    | none => exact forall2_refl_self _ _ (fun f _ => ⟨rfl, statusStepOk_refl _⟩)
    | some iid =>
      cases cr with
      | none => exact forall2_refl_self _ _ (fun f _ => ⟨rfl, statusStepOk_refl _⟩)
      | some pr =>
        obtain ⟨bid, bstatus⟩ := pr
        have hfil : (applyOp (PipeOp.submit sel (some iid) (some (bid, bstatus)) now)
            s).document_files =
            s.document_files.map
              (fun f => if f.id ∈ (selectSubmit s sel).map (fun r => r.id)
                then { f with transcription_status := TStatus.submitted }
                else f) := rfl
        rw [hfil]
        apply forall2_map_self
        intro f hf
        constructor
        · by_cases h : f.id ∈ (selectSubmit s sel).map (fun r => r.id)
          · rw [if_pos h]
          · rw [if_neg h]
        · have hss := submit_safety s sel hI3 f hf
          by_cases h : f.id ∈ (selectSubmit s sel).map (fun r => r.id)
          · rw [if_pos h] at hss
            rw [if_pos h]
            exact hss
          · rw [if_neg h]
            exact statusStepOk_refl _
  | track api =>
    rw [show applyOp (PipeOp.track api) s = checkTranscriptionBatches api s from rfl,
      checkTranscriptionBatches_files]
    exact forall2_refl_self _ _ (fun f _ => ⟨rfl, statusStepOk_refl _⟩)
  | reconcile dl now =>
    rw [show applyOp (PipeOp.reconcile dl now) s =
      processTranscriptionResults dl now s from rfl,
      processTranscriptionResults_files]
    apply forall2_map_self
    intro f hf
    exact ⟨(pointR_id dl now _ f).symm, reconcile_safety dl now s hI1 hwb f hf⟩
  | sweep now =>
    rw [show applyOp (PipeOp.sweep now) s = cleanupFailedBatches now s from rfl,
      cleanupFailedBatches_files]
    apply forall2_map_self
    intro f hf
    exact ⟨(pointC_id _ f).symm, sweep_safety s hI1 f hf⟩

/-- Witness for C5: one recovery sweep applied to a fresh one-unit store is
status-safe. -/
theorem pipeline_allowedTransitions_witness :
    List.Forall₂
      (fun f f' => f.id = f'.id ∧
        statusStepOk f.transcription_status f'.transcription_status)
      wit5.document_files (applyOp (PipeOp.sweep 0) wit5).document_files :=
  pipeline_allowedTransitions wit5 (PipeOp.sweep 0)
    (Reachable.init wit5 rfl (by decide)) trivial

end Mab
